import Mathlib

/-!
Shallow embedding of the trade-journal reporting pipeline
(`src/services/tradeJournal.ts`, second revision in the file, the one whose
line numbers the claims cite).

Modelling conventions:
* JS `number` values (prices, charges, P&L) are modelled as `ℚ`; quantities
  are `ℤ` (the code only ever parses integers into them).
* A `Date`/`Time` pair is modelled at minute granularity: `Date` is a day
  index, `Time` is `Option ℕ` (minutes after midnight), with `none` standing
  for a missing or empty time string.  `new Date(Date + "T" + (Time or
  "00:00"))` therefore becomes `dtMin t = 1440 * t.Date + (t.Time or 0)`, and
  differences of `getTime` divided by 60000 (then `Math.round`ed, which is the
  identity at minute granularity) become differences of `dtMin`.
* Optional / possibly-undefined JS fields become `Option` fields; the JS
  truthiness tests in the code are translated accordingly (empty string and
  numeric zero are falsy).
* `Record<string, T>` objects are insertion-ordered association lists, which
  is exactly the iteration order `Object.entries` gives for string keys.
* JS `Array.prototype.sort` is a stable sort; it is modelled with
  `List.insertionSort`, which is stable for a total preorder, hence produces
  the same list.
* `Infinity` (only ever produced by the profit-factor computation) is
  modelled by the two-constructor type `JNum`.
-/

namespace TradeJournal

/-- Trade side, the `"Buy" | "Sell"` union of the source. -/
inductive Side where
  | Buy : Side
  | Sell : Side
deriving DecidableEq, Repr

/-- One execution leg, the `Trade` interface of the source.  Fields that the
reporting pipeline reads are kept; `Direction` and `Price` are `Option`al
because the pairing filter explicitly tests `t.Direction &&` (truthiness) and
`t.Price !== undefined`. -/
structure Trade where
  Date : ℕ
  Time : Option ℕ
  Symbol : String
  Direction : Option Side
  Quantity : ℤ
  Price : Option ℚ
  PnL : ℚ := 0
  Charges : ℚ := 0
  NetPnL : ℚ := 0
  stopDistance : Option ℚ := none
  fullQty : Option ℤ := none
  buyPriceRaw : Option ℚ := none
  sellPriceRaw : Option ℚ := none
deriving DecidableEq, Repr

/-- Minute timestamp of a leg: `new Date(Date + "T" + (Time || "00:00"))`. -/
def dtMin (t : Trade) : ℕ := 1440 * t.Date + t.Time.getD 0

/-- The price actually used in arithmetic (`t.Price!` in the source; the
pairing filter guarantees it is present there). -/
def pV (t : Trade) : ℚ := t.Price.getD 0

/-- One matched entry/exit pair, the `RoundTrip` interface.  The tag fields
are filled in later by the tagger; the pairing engine leaves them at their
defaults (the source leaves them `undefined`). -/
structure RoundTrip where
  symbol : String
  entry : Trade
  exit : Trade
  legs : List Trade
  PnL : ℚ
  NetPnL : ℚ
  holdingMinutes : ℤ
  Demon : String := ""
  DemonArr : List String := []
  GoodPractice : String := ""
  GoodPracticeArr : List String := []
  isBadTrade : Bool := false
  isGoodTrade : Bool := false
deriving DecidableEq, Repr

/-- Leftover exposure per symbol, the `OpenPosition` interface. -/
structure OpenPosition where
  symbol : String
  side : Side
  quantity : ℤ
  avgPrice : ℚ
deriving DecidableEq, Repr

/-- Per-symbol raw ledger row, the `ScripSummaryRow` interface. -/
structure ScripSummaryRow where
  symbol : String
  quantity : ℤ
  avgBuy : ℚ
  avgSell : ℚ
  charges : ℚ
  netRealized : ℚ
deriving DecidableEq, Repr

/-- A JS number that may be `Infinity` (profit factor). -/
inductive JNum where
  | fin : ℚ → JNum
  | inf : JNum
deriving DecidableEq, Repr

/-- `Number.EPSILON`. -/
def jsEpsilon : ℚ := 1 / 2 ^ 52

/-- The `r2` helper: `Math.round((n + Number.EPSILON) * 100) / 100`.
`Math.round` rounds half away from zero toward positive infinity, exactly
Mathlib `round`. -/
def r2 (n : ℚ) : ℚ := (round ((n + jsEpsilon) * 100) : ℚ) / 100

/-- The filter at the head of `pairRoundTripsAndOpen`:
`t.Symbol && t.Direction && t.Quantity && t.Price !== undefined`. -/
def validRow (t : Trade) : Bool :=
  !(t.Symbol == "") && t.Direction.isSome && !(t.Quantity == 0) && t.Price.isSome

/-- Sort relation used by the pairing engine: ascending by datetime.  The JS
sort is stable, so `insertionSort` with this total preorder is the exact
model. -/
def byDt (a b : Trade) : Prop := dtMin a ≤ dtMin b

instance : DecidableRel byDt := fun a b => inferInstanceAs (Decidable (dtMin a ≤ dtMin b))

instance : IsTotal Trade byDt := ⟨fun a b => Nat.le_total (dtMin a) (dtMin b)⟩

instance : IsTrans Trade byDt := ⟨fun _ _ _ h h' => Nat.le_trans h h'⟩

/-- Charge pro-rating helper from `pairRoundTripsAndOpen`:
`const f = fullQty && fullQty > 0 ? fullQty : usedQty; if (f <= 0) return 0;
return c * (usedQty / f);`. -/
def prorate (charges : ℚ) (usedQty : ℤ) (fullQty : Option ℤ) : ℚ :=
  let f : ℤ :=
    match fullQty with
    | some fq => if 0 < fq then fq else usedQty
    | none => usedQty
  if f ≤ 0 then 0 else charges * usedQty / f

/-- One matched slice: builds `entryLegUsed`, `exitLeg` and the `RoundTrip`
record pushed by the inner while loop. -/
def mkTrip (trade entryLeg : Trade) (closeQty : ℤ) : RoundTrip :=
  let entryLegUsed : Trade :=
    { entryLeg with
        Quantity := closeQty
        Charges := prorate entryLeg.Charges closeQty entryLeg.fullQty }
  let exitLeg : Trade :=
    { trade with
        Quantity := closeQty
        Charges := prorate trade.Charges closeQty trade.fullQty }
  let gross : ℚ :=
    if entryLegUsed.Direction = some Side.Buy then
      (pV exitLeg - pV entryLegUsed) * closeQty
    else
      (pV entryLegUsed - pV exitLeg) * closeQty
  let sliceCharges : ℚ := entryLegUsed.Charges + exitLeg.Charges
  let pnl : ℚ := gross - sliceCharges
  { symbol := trade.Symbol
    entry := entryLegUsed
    exit := exitLeg
    legs := [entryLegUsed, exitLeg]
    PnL := pnl
    NetPnL := pnl
    holdingMinutes := (dtMin exitLeg : ℤ) - (dtMin entryLegUsed : ℤ) }

/-- The inner `while (openLegs.length && qtyToClose > 0)` loop.  Returns the
emitted round trips, the remaining queue, and the leftover `qtyToClose`.

In the branch where the front leg strictly exceeds the slice, the slice equals
the whole remaining quantity (`closeQty = min q front = q`), so the loop body
runs once more with `qtyToClose = 0` and exits; the translation returns
directly there. -/
def closeLoop (trade : Trade) : ℤ → List Trade → List RoundTrip × List Trade × ℤ
  | q, [] => ([], [], q)
  | q, e :: rest =>
    if q ≤ 0 then ([], e :: rest, q)
    else
      let closeQty := min q e.Quantity
      let trip := mkTrip trade e closeQty
      if closeQty < e.Quantity then
        ([trip], { e with Quantity := e.Quantity - closeQty } :: rest, q - closeQty)
      else
        let r := closeLoop trade (q - closeQty) rest
        (trip :: r.1, r.2.1, r.2.2)

/-- The leg pushed when the incoming trade extends or starts a position:
`{...trade, _fullQty: trade._fullQty ?? trade.Quantity}`. -/
def pushLeg (trade : Trade) : Trade :=
  { trade with fullQty := some (trade.fullQty.getD trade.Quantity) }

/-- The leg pushed when the incoming quantity survives an exhausted queue:
`{...trade, Quantity: qtyToClose, _fullQty: trade._fullQty,
Charges: prorate(trade.Charges, qtyToClose, trade._fullQty)}`. -/
def remainderLeg (trade : Trade) (qtyToClose : ℤ) : Trade :=
  { trade with
      Quantity := qtyToClose
      Charges := prorate trade.Charges qtyToClose trade.fullQty }

/-- Insertion-ordered map of open legs per symbol
(`Record<string, Trade[]>`). -/
abbrev LegMap := List (String × List Trade)

/-- First binding of a key, i.e. JS property lookup. -/
def findLegs (m : LegMap) (s : String) : Option (List Trade) :=
  (m.find? (fun p => p.1 == s)).map (fun p => p.2)

/-- `if (!openPositions[symbol]) openPositions[symbol] = []`. -/
def ensureKey (m : LegMap) (s : String) : LegMap :=
  if (m.find? (fun p => p.1 == s)).isSome then m else m ++ [(s, [])]

/-- Overwrite the (first) binding of an existing key. -/
def updateKey (m : LegMap) (s : String) (v : List Trade) : LegMap :=
  match m with
  | [] => []
  | (k, old) :: rest => if k == s then (k, v) :: rest else (k, old) :: updateKey rest s v

/-- State threaded through the main `for` loop of `pairRoundTripsAndOpen`. -/
structure PairState where
  roundTrips : List RoundTrip
  openLegs : LegMap
deriving DecidableEq, Repr

/-- The body of the main `for (const trade of sorted)` loop. -/
def stepTrade (st : PairState) (trade : Trade) : PairState :=
  let symbol := trade.Symbol
  let m := ensureKey st.openLegs symbol
  let legs := (findLegs m symbol).getD []
  match legs with
  | [] =>
    { st with openLegs := updateKey m symbol [pushLeg trade] }
  | h :: _ =>
    if trade.Direction ≠ h.Direction then
      let r := closeLoop trade trade.Quantity legs
      let legsAfter := if 0 < r.2.2 then r.2.1 ++ [remainderLeg trade r.2.2] else r.2.1
      { roundTrips := st.roundTrips ++ r.1
        openLegs := updateKey m symbol legsAfter }
    else
      { st with openLegs := updateKey m symbol (legs ++ [pushLeg trade]) }

/-- Result of `pairRoundTripsAndOpen`. -/
structure PairResult where
  roundTrips : List RoundTrip
  openLegsBySymbol : LegMap
deriving DecidableEq, Repr

/-- `pairRoundTripsAndOpen`: filter, stable sort by datetime, then the FIFO
loop. -/
def pairRoundTripsAndOpen (trades : List Trade) : PairResult :=
  let sorted := List.insertionSort byDt (trades.filter validRow)
  let st := sorted.foldl stepTrade ⟨[], []⟩
  ⟨st.roundTrips, st.openLegs⟩

/-! ### Raw paired-symbol headline (`computePairedHeadlineFromRawSymbolFilter`) -/

/-- Membership in the `withBuy` set: some row with a nonempty symbol equal to
`s` has `Direction === "Buy"`. -/
def symHasBuy (trades : List Trade) (s : String) : Bool :=
  trades.any (fun t => !(t.Symbol == "") && t.Symbol == s && t.Direction == some Side.Buy)

/-- Membership in the `withSell` set (the `else if` branch). -/
def symHasSell (trades : List Trade) (s : String) : Bool :=
  trades.any (fun t => !(t.Symbol == "") && t.Symbol == s && t.Direction == some Side.Sell)

/-- Membership in `pairedSymbols = withBuy ∩ withSell`. -/
def isPairedSymbol (trades : List Trade) (s : String) : Bool :=
  symHasBuy trades s && symHasSell trades s

/-- Whether a row enters the headline sums:
`if (!t.Symbol || !pairedSymbols.has(t.Symbol)) continue`. -/
def headlineRow (trades : List Trade) (t : Trade) : Bool :=
  !(t.Symbol == "") && isPairedSymbol trades t.Symbol

/-- The raw price basis of a row: `buyPriceRaw ?? Price ?? 0` for buys and
`sellPriceRaw ?? Price ?? 0` for everything else (the sum loop uses a plain
`else`, not `else if`). -/
def rawPrice (t : Trade) : ℚ :=
  if t.Direction = some Side.Buy then (t.buyPriceRaw.orElse fun _ => t.Price).getD 0
  else (t.sellPriceRaw.orElse fun _ => t.Price).getD 0

/-- Numeric output of `computePairedHeadlineFromRawSymbolFilter` (the returned
`pairedSymbols` set is modelled separately by `isPairedSymbol`). -/
structure RawHeadline where
  buyQty : ℤ
  sellQty : ℤ
  avgBuy : ℚ
  avgSell : ℚ
  charges : ℚ
  netPnl : ℚ
deriving DecidableEq, Repr

/-- The accumulation loop of the headline, written as per-row sums (each
accumulator variable of the loop evolves independently, so the loop is the
componentwise sum over rows). -/
def computePairedHeadlineFromRawSymbolFilter (trades : List Trade) : RawHeadline :=
  let buyQty : ℤ := (trades.map (fun t =>
    if headlineRow trades t && t.Direction == some Side.Buy then t.Quantity else 0)).sum
  let sellQty : ℤ := (trades.map (fun t =>
    if headlineRow trades t && !(t.Direction == some Side.Buy) then t.Quantity else 0)).sum
  let buyNotional : ℚ := (trades.map (fun t =>
    if headlineRow trades t && t.Direction == some Side.Buy then rawPrice t * t.Quantity else 0)).sum
  let sellNotional : ℚ := (trades.map (fun t =>
    if headlineRow trades t && !(t.Direction == some Side.Buy) then rawPrice t * t.Quantity else 0)).sum
  let totalCharges : ℚ := (trades.map (fun t =>
    if headlineRow trades t then t.Charges else 0)).sum
  let avgBuy : ℚ := if buyQty ≠ 0 then buyNotional / buyQty else 0
  let avgSell : ℚ := if sellQty ≠ 0 then sellNotional / sellQty else 0
  let netPnl : ℚ := (sellNotional - buyNotional) - totalCharges
  { buyQty := buyQty
    sellQty := sellQty
    avgBuy := r2 avgBuy
    avgSell := r2 avgSell
    charges := r2 totalCharges
    netPnl := r2 netPnl }

/-! ### Raw per-scrip table (`buildRawScripSummary`) -/

/-- Keep the first occurrence of each element (JS `Set` insertion order,
also the `Map` key insertion order). -/
def dedupFirstAux [DecidableEq α] (seen : List α) : List α → List α
  | [] => []
  | x :: xs => if x ∈ seen then dedupFirstAux seen xs else x :: dedupFirstAux (x :: seen) xs

/-- First-occurrence deduplication. -/
def dedupFirst [DecidableEq α] (l : List α) : List α := dedupFirstAux [] l

/-- Rows of a given symbol that enter the per-scrip aggregation. -/
def scripRows (trades : List Trade) (s : String) : List Trade :=
  trades.filter (fun t => headlineRow trades t && t.Symbol == s)

/-- One row of the scrip table for symbol `s`. -/
def mkScripRow (trades : List Trade) (s : String) : ScripSummaryRow :=
  let rows := scripRows trades s
  let buyQty : ℤ := (rows.map (fun t => if t.Direction == some Side.Buy then t.Quantity else 0)).sum
  let sellQty : ℤ := (rows.map (fun t => if !(t.Direction == some Side.Buy) then t.Quantity else 0)).sum
  let buyNotional : ℚ := (rows.map (fun t =>
    if t.Direction == some Side.Buy then rawPrice t * t.Quantity else 0)).sum
  let sellNotional : ℚ := (rows.map (fun t =>
    if !(t.Direction == some Side.Buy) then rawPrice t * t.Quantity else 0)).sum
  let charges : ℚ := (rows.map (fun t => t.Charges)).sum
  { symbol := s
    quantity := min buyQty sellQty
    avgBuy := r2 (if buyQty ≠ 0 then buyNotional / buyQty else 0)
    avgSell := r2 (if sellQty ≠ 0 then sellNotional / sellQty else 0)
    charges := r2 charges
    netRealized := r2 ((sellNotional - buyNotional) - charges) }

/-- Descending, stable sort relation on scrip rows
(`rows.sort((x, y) => y.netRealized - x.netRealized)`). -/
def scripGE (x y : ScripSummaryRow) : Prop := y.netRealized ≤ x.netRealized

instance : DecidableRel scripGE :=
  fun x y => inferInstanceAs (Decidable (y.netRealized ≤ x.netRealized))

instance : IsTotal ScripSummaryRow scripGE := ⟨fun a b => le_total b.netRealized a.netRealized⟩

instance : IsTrans ScripSummaryRow scripGE := ⟨fun _ _ _ h h' => le_trans h' h⟩

/-- `buildRawScripSummary`: one `Map` entry per paired symbol in first-row
order, then a stable sort by descending `netRealized`. -/
def buildRawScripSummary (trades : List Trade) : List ScripSummaryRow :=
  let symbols := dedupFirst ((trades.filter (headlineRow trades)).map (fun t => t.Symbol))
  List.insertionSort scripGE (symbols.map (mkScripRow trades))

/-! ### Open positions (`buildOpenPositionsFromOpenLegs`) -/

/-- Signed net quantity of a leg list. -/
def netQty (legs : List Trade) : ℤ :=
  (legs.map (fun l => if l.Direction = some Side.Buy then l.Quantity else -l.Quantity)).sum

/-- The raw price used for the open-position weighted average. -/
def openRawPrice (side : Side) (l : Trade) : ℚ :=
  if side = Side.Buy then (l.buyPriceRaw.orElse fun _ => l.Price).getD 0
  else (l.sellPriceRaw.orElse fun _ => l.Price).getD 0

/-- One symbol of `buildOpenPositionsFromOpenLegs`: `none` when the leg list
is empty or nets to zero. -/
def buildOpen1 (symbol : String) (legs : List Trade) : Option OpenPosition :=
  if legs.isEmpty then none
  else
    let qty := netQty legs
    if qty = 0 then none
    else
      let side := if 0 < qty then Side.Buy else Side.Sell
      let remainingQty := |qty|
      let wNotional : ℚ := (legs.map (fun l =>
        if l.Direction = some side ∧ l.Quantity ≠ 0 then openRawPrice side l * l.Quantity else 0)).sum
      let wQty : ℤ := (legs.map (fun l =>
        if l.Direction = some side ∧ l.Quantity ≠ 0 then l.Quantity else 0)).sum
      let avgPrice : ℚ := if wQty ≠ 0 then wNotional / wQty else 0
      some { symbol := symbol, side := side, quantity := remainingQty, avgPrice := r2 avgPrice }

/-- Ascending, stable sort relation on open positions
(`out.sort((a,b) => a.symbol.localeCompare(b.symbol))`). -/
def posLE (a b : OpenPosition) : Prop := a.symbol ≤ b.symbol

instance : DecidableRel posLE := fun a b => inferInstanceAs (Decidable (a.symbol ≤ b.symbol))

instance : IsTotal OpenPosition posLE := ⟨fun a b => le_total a.symbol b.symbol⟩

instance : IsTrans OpenPosition posLE := ⟨fun _ _ _ h h' => le_trans h h'⟩

/-- `buildOpenPositionsFromOpenLegs`. -/
def buildOpenPositionsFromOpenLegs (m : LegMap) : List OpenPosition :=
  List.insertionSort posLE (m.filterMap (fun p => buildOpen1 p.1 p.2))

/-! ### Round-trip KPIs (the first loop of `processTrades`) -/

/-- Number of winning trips (`rt.PnL > 0`). -/
def winsOf (rts : List RoundTrip) : ℕ := rts.countP (fun rt => decide (0 < rt.PnL))

/-- Number of losing trips (`rt.PnL < 0`). -/
def lossesOf (rts : List RoundTrip) : ℕ := rts.countP (fun rt => decide (rt.PnL < 0))

/-- Gross profit: sum of positive trip P&L. -/
def profitSumOf (rts : List RoundTrip) : ℚ :=
  (rts.map (fun rt => if 0 < rt.PnL then rt.PnL else 0)).sum

/-- Gross loss: sum of `Math.abs(rt.PnL)` over losing trips. -/
def lossSumOf (rts : List RoundTrip) : ℚ :=
  (rts.map (fun rt => if rt.PnL < 0 then |rt.PnL| else 0)).sum

/-- `pnlByDate[d] = (pnlByDate[d] || 0) + rt.PnL` on an insertion-ordered
record. -/
def bumpDate (m : List (ℕ × ℚ)) (d : ℕ) (v : ℚ) : List (ℕ × ℚ) :=
  match m with
  | [] => [(d, v)]
  | (k, x) :: rest => if k = d then (k, x + v) :: rest else (k, x) :: bumpDate rest d v

/-- The `pnlByDate` record after the KPI loop. -/
def pnlByDateOf (rts : List RoundTrip) : List (ℕ × ℚ) :=
  rts.foldl (fun m rt => bumpDate m rt.exit.Date rt.PnL) []

/-- The `tradeDates` list (exit dates, first-occurrence order). -/
def tradeDatesOf (rts : List RoundTrip) : List ℕ :=
  dedupFirst (rts.map (fun rt => rt.exit.Date))

/-- `avgWin`. -/
def avgWinOf (rts : List RoundTrip) : ℚ :=
  if winsOf rts ≠ 0 then profitSumOf rts / winsOf rts else 0

/-- `avgLoss`. -/
def avgLossOf (rts : List RoundTrip) : ℚ :=
  if lossesOf rts ≠ 0 then lossSumOf rts / lossesOf rts else 0

/-- `tradeWinPercent` before final rounding. -/
def tradeWinPercentOf (rts : List RoundTrip) : ℚ :=
  if rts.length ≠ 0 then (winsOf rts : ℚ) / rts.length * 100 else 0

/-- `profitFactor = lossSum === 0 ? (profitSum > 0 ? Infinity : 0)
: profitSum / lossSum`. -/
def profitFactorOf (rts : List RoundTrip) : JNum :=
  if lossSumOf rts = 0 then (if 0 < profitSumOf rts then JNum.inf else JNum.fin 0)
  else JNum.fin (profitSumOf rts / lossSumOf rts)

/-- `dayWinPercent` before final rounding. -/
def dayWinPercentOf (rts : List RoundTrip) : ℚ :=
  if (tradeDatesOf rts).length ≠ 0 then
    (((pnlByDateOf rts).filter (fun p => decide (0 < p.2))).length : ℚ)
      / (tradeDatesOf rts).length * 100
  else 0

/-! ### Behavioral tagger (the second loop of `processTrades`) -/

/-- The standard demon tags, in source order. -/
def standardDemons : List String :=
  ["POOR RISK/REWARD TRADE", "HELD LOSS TOO LONG", "PREMATURE EXIT",
   "REVENGE TRADING", "OVERTRADING", "WRONG POSITION SIZE",
   "CHASED ENTRY", "MISSED STOP LOSS"]

/-- The standard good-practice tags, in source order. -/
def standardGood : List String :=
  ["GOOD RISK/REWARD", "PROPER ENTRY", "PROPER EXIT",
   "FOLLOWED PLAN", "STOP LOSS RESPECTED", "HELD FOR TARGET", "DISCIPLINED"]

/-- Per-tag bad summary entry. -/
structure TagCost where
  count : ℕ
  totalCost : ℚ
deriving DecidableEq, Repr

/-- Per-tag good summary entry. -/
structure TagGain where
  count : ℕ
  totalProfit : ℚ
deriving DecidableEq, Repr

/-- `(badTagSummary[main] ||= {count:0,totalCost:0})` followed by the two
increments, on an insertion-ordered record. -/
def bumpBad (m : List (String × TagCost)) (k : String) (cost : ℚ) : List (String × TagCost) :=
  match m with
  | [] => [(k, ⟨1, cost⟩)]
  | (k', v) :: rest =>
    if k' = k then (k', ⟨v.count + 1, v.totalCost + cost⟩) :: rest
    else (k', v) :: bumpBad rest k cost

/-- Same for the good summary. -/
def bumpGood (m : List (String × TagGain)) (k : String) (gain : ℚ) : List (String × TagGain) :=
  match m with
  | [] => [(k, ⟨1, gain⟩)]
  | (k', v) :: rest =>
    if k' = k then (k', ⟨v.count + 1, v.totalProfit + gain⟩) :: rest
    else (k', v) :: bumpGood rest k gain

/-- `dayOrdinal[day] = (dayOrdinal[day] || 0) + 1`. -/
def bumpOrd (m : List (ℕ × ℕ)) (d : ℕ) : List (ℕ × ℕ) :=
  match m with
  | [] => [(d, 1)]
  | (k, x) :: rest => if k = d then (k, x + 1) :: rest else (k, x) :: bumpOrd rest d

/-- Lookup with default 0. -/
def ordOf (m : List (ℕ × ℕ)) (d : ℕ) : ℕ :=
  ((m.find? (fun p => p.1 == d)).map (fun p => p.2)).getD 0

/-- `t.entry.Quantity || 1`. -/
def qOr1 (q : ℤ) : ℤ := if q = 0 then 1 else q

/-- State threaded through the tagging loop. -/
structure TagState where
  tagged : List RoundTrip
  badSum : List (String × TagCost)
  goodSum : List (String × TagGain)
  totalBadCost : ℚ
  totalGoodProfit : ℚ
  tooSoon : ℕ
  prevLoss : Option (ℕ × Option Side)
  dayOrd : List (ℕ × ℕ)
deriving Repr

/-- `t.entry.Time && t.entry.Time < "09:20"`: the time string is present and
lexicographically below the cutoff, i.e. the minute value is below 560. -/
def chasedEntry (t : RoundTrip) : Prop :=
  t.entry.Time.isSome ∧ t.entry.Time.getD 0 < 560

instance (t : RoundTrip) : Decidable (chasedEntry t) := by
  unfold chasedEntry; infer_instance

/-- The `POOR RISK/REWARD TRADE` guard: `t.PnL > 0 && t.entry.stopDistance &&
t.entry.stopDistance > 0` and the risk/reward ratio below `minGoodRR`. -/
def poorRRCond (t : RoundTrip) : Prop :=
  0 < t.PnL ∧ t.entry.stopDistance.isSome ∧ 0 < t.entry.stopDistance.getD 0 ∧
    (let riskAmt := t.entry.stopDistance.getD 0 * (qOr1 t.entry.Quantity : ℚ)
     (if 0 < riskAmt then t.PnL / riskAmt else 0) < 6/5)

instance (t : RoundTrip) : Decidable (poorRRCond t) := by
  unfold poorRRCond; infer_instance

/-- The `REVENGE TRADING` guard, given the remembered last losing trip. -/
def revengeCond (prevLoss : Option (ℕ × Option Side)) (t : RoundTrip) : Prop :=
  prevLoss.isSome ∧ t.entry.Time.isSome ∧ t.PnL < 0 ∧
    (prevLoss.getD (0, none)).2 = t.entry.Direction ∧
    0 ≤ (dtMin t.entry : ℤ) - ((prevLoss.getD (0, none)).1 : ℤ) ∧
    (dtMin t.entry : ℤ) - ((prevLoss.getD (0, none)).1 : ℤ) ≤ 15

instance (p : Option (ℕ × Option Side)) (t : RoundTrip) : Decidable (revengeCond p t) := by
  unfold revengeCond; infer_instance

/-- The demon list built by one iteration of the tagging loop, before
deduplication.  `avgWin`/`avgLoss` are the loop-wide averages;
`tradeNumberToday` is the per-day ordinal; `prevLoss` is the last losing
trip seen. -/
def demonsFor (avgWin avgLoss : ℚ) (tradeNumberToday : ℕ)
    (prevLoss : Option (ℕ × Option Side)) (t : RoundTrip) : List String :=
  let d0 : List String := []
  let d1 := if poorRRCond t then d0 ++ ["POOR RISK/REWARD TRADE"] else d0
  let d2 := if t.PnL < 0 ∧ 90 < t.holdingMinutes then d1 ++ ["HELD LOSS TOO LONG"] else d1
  let d3 := if 0 < t.PnL ∧ t.holdingMinutes < 8 ∧ t.PnL < avgWin * (4/5) then
    d2 ++ ["PREMATURE EXIT"] else d2
  let d4 := if t.PnL < 0 ∧ |avgLoss * (13/10)| < |t.PnL| then d3 ++ ["MISSED STOP LOSS"] else d3
  let d5 := if chasedEntry t then d4 ++ ["CHASED ENTRY"] else d4
  let riskAmtApprox := |(pV t.entry - pV t.exit) * (qOr1 t.entry.Quantity : ℚ)|
  let d6 := if 2000 < riskAmtApprox ∨ (0 < avgLoss ∧ avgLoss * (5/2) < riskAmtApprox) then
    d5 ++ ["WRONG POSITION SIZE"] else d5
  let d7 := if 5 < tradeNumberToday then d6 ++ ["OVERTRADING"] else d6
  let d8 := if revengeCond prevLoss t then d7 ++ ["REVENGE TRADING"] else d7
  d8

/-- The good-practice list built by one iteration of the tagging loop, given
the demon list of the same iteration. -/
def goodFor (avgLoss : ℚ) (demons : List String) (t : RoundTrip) : List String :=
  let g0 : List String := []
  let g1 := if 0 < t.PnL ∧ 0 < avgLoss ∧ |avgLoss * (6/5)| ≤ t.PnL then
    g0 ++ ["GOOD RISK/REWARD"] else g0
  let g2 := if "CHASED ENTRY" ∉ demons ∧
      (t.entry.Time = none ∨ 560 ≤ t.entry.Time.getD 0) ∧
      ((t.PnL ≤ 0 ∧ |t.PnL| ≤ |avgLoss * (13/10)|) ∨ 0 < t.PnL) then
    g1 ++ ["PROPER ENTRY"] else g1
  let g3 := if "PREMATURE EXIT" ∉ demons ∧ "MISSED STOP LOSS" ∉ demons then
    g2 ++ ["PROPER EXIT"] else g2
  let g4 := if t.PnL < 0 ∧ |t.PnL| ≤ |avgLoss * (13/10)| then
    g3 ++ ["STOP LOSS RESPECTED"] else g3
  let g5 := if 0 < t.PnL ∧ 12 < t.holdingMinutes ∧ |avgLoss * (6/5)| < t.PnL then
    g4 ++ ["HELD FOR TARGET"] else g4
  let g6 := if demons = [] ∧ 2 ≤ g5.length then g5 ++ ["DISCIPLINED"] else g5
  g6

/-- The tagged copy of a round trip produced by one iteration of the tagging
loop (`t.DemonArr = ...` through `t.isGoodTrade = ...`). -/
def tagTrip (avgWin avgLoss : ℚ) (tradeNumberToday : ℕ)
    (prevLoss : Option (ℕ × Option Side)) (t : RoundTrip) : RoundTrip :=
  let demons := demonsFor avgWin avgLoss tradeNumberToday prevLoss t
  let good := goodFor avgLoss demons t
  let demonArr := dedupFirst demons
  let goodArr := dedupFirst good
  { t with
      DemonArr := demonArr
      Demon := String.intercalate ", " demonArr
      GoodPracticeArr := goodArr
      GoodPractice := String.intercalate ", " goodArr
      isBadTrade := !demonArr.isEmpty && decide (t.PnL < 0)
      isGoodTrade := decide (2 ≤ goodArr.length) && demonArr.isEmpty &&
        (decide (0 < t.PnL) || decide ("STOP LOSS RESPECTED" ∈ goodArr)) }

/-- One iteration of the tagging loop. -/
def tagStep (avgWin avgLoss : ℚ) (st : TagState) (t : RoundTrip) : TagState :=
  let day := t.exit.Date
  let dayOrd' := bumpOrd st.dayOrd day
  let tradeNumberToday := ordOf dayOrd' day
  let tooSoon' := if chasedEntry t then st.tooSoon + 1 else st.tooSoon
  let prevLoss' := if t.PnL < 0 then some (dtMin t.exit, t.entry.Direction) else st.prevLoss
  let t' : RoundTrip := tagTrip avgWin avgLoss tradeNumberToday st.prevLoss t
  let st1 : TagState :=
    { st with
        tagged := st.tagged ++ [t']
        tooSoon := tooSoon'
        prevLoss := prevLoss'
        dayOrd := dayOrd' }
  let st2 :=
    if t'.isBadTrade ∧ t.PnL < 0 then
      { st1 with
          totalBadCost := st1.totalBadCost + |t.PnL|
          badSum := match t'.DemonArr.head? with
            | some main => bumpBad st1.badSum main |t.PnL|
            | none => st1.badSum }
    else st1
  if t'.isGoodTrade ∧ 0 < t.PnL then
    { st2 with
        totalGoodProfit := st2.totalGoodProfit + t.PnL
        goodSum := match t'.GoodPracticeArr.head? with
          | some main => bumpGood st2.goodSum main t.PnL
          | none => st2.goodSum }
  else st2

/-- The initial tag summaries (every standard tag pre-seeded at zero). -/
def initBadSum : List (String × TagCost) := standardDemons.map (fun tag => (tag, ⟨0, 0⟩))

/-- Good counterpart of `initBadSum`. -/
def initGoodSum : List (String × TagGain) := standardGood.map (fun tag => (tag, ⟨0, 0⟩))

/-- The whole tagging loop. -/
def runTagging (rts : List RoundTrip) : TagState :=
  rts.foldl (tagStep (avgWinOf rts) (avgLossOf rts))
    { tagged := []
      badSum := initBadSum
      goodSum := initGoodSum
      totalBadCost := 0
      totalGoodProfit := 0
      tooSoon := 0
      prevLoss := none
      dayOrd := [] }

/-- Descending, stable sort relation on tag-summary entries
(`sort((a,b) => b[1].count - a[1].count)`). -/
def cntGE (a b : String × TagCost) : Prop := b.2.count ≤ a.2.count

instance : DecidableRel cntGE := fun a b => inferInstanceAs (Decidable (b.2.count ≤ a.2.count))

instance : IsTotal (String × TagCost) cntGE := ⟨fun a b => Nat.le_total b.2.count a.2.count⟩

instance : IsTrans (String × TagCost) cntGE := ⟨fun _ _ _ h h' => Nat.le_trans h' h⟩

/-- Top-3 demon names by count. -/
def demonFinderOf (badSum : List (String × TagCost)) : List String :=
  ((List.insertionSort cntGE badSum).take 3).map (fun p => p.1)

/-! ### The `Stats` record and `processTrades` -/

/-- `avgWinLoss`. -/
structure AvgWinLoss where
  avgWin : ℚ
  avgLoss : ℚ
deriving DecidableEq, Repr

/-- `upholicPointers`. -/
structure Pointers where
  patience : ℕ
  demonFinder : List String
  planOfAction : List String
deriving DecidableEq, Repr

/-- `pairedTotals`. -/
structure PairedTotals where
  buyQty : ℤ
  sellQty : ℤ
  avgBuy : ℚ
  avgSell : ℚ
  charges : ℚ
  netPnl : ℚ
deriving DecidableEq, Repr

/-- `totalsCheck`. -/
structure TotalsCheck where
  netPnlFromScrips : ℚ
  chargesFromScrips : ℚ
deriving DecidableEq, Repr

/-- The `Stats` output record (second revision of the source). -/
structure Stats where
  netPnl : ℚ
  pnlBasis : String
  totalsCheck : TotalsCheck
  tradeWinPercent : ℚ
  profitFactor : JNum
  dayWinPercent : ℚ
  avgWinLoss : AvgWinLoss
  upholicScore : ℤ
  upholicPointers : Pointers
  trades : List RoundTrip
  tradeDates : List ℕ
  empty : Bool
  totalBadTradeCost : ℚ
  totalGoodTradeProfit : ℚ
  badTradeCounts : List (String × TagCost)
  goodTradeCounts : List (String × TagGain)
  standardDemonsOut : List String
  standardGoodOut : List String
  enteredTooSoonCount : ℕ
  scripSummary : List ScripSummaryRow
  pairedTotals : PairedTotals
  openPositions : List OpenPosition
deriving DecidableEq, Repr

/-- `processTrades` (second revision): FIFO pairing, raw paired headline,
scrip table, open positions, KPIs, tagging, and assembly of `Stats`. -/
def processTrades (trades : List Trade) : Stats :=
  let pr := pairRoundTripsAndOpen trades
  let roundTrips := pr.roundTrips
  let pairedRaw := computePairedHeadlineFromRawSymbolFilter trades
  let netPnl := pairedRaw.netPnl
  let scripSummary := buildRawScripSummary trades
  let openPositions := buildOpenPositionsFromOpenLegs pr.openLegsBySymbol
  let avgWin := avgWinOf roundTrips
  let avgLoss := avgLossOf roundTrips
  let tradeWinPercent := tradeWinPercentOf roundTrips
  let profitFactor := profitFactorOf roundTrips
  let dayWinPercent := dayWinPercentOf roundTrips
  let tag := runTagging roundTrips
  let demonFinder := demonFinderOf tag.badSum
  let planOfAction : List String := []
  let upholicScore : ℚ := min 100 ((80 : ℚ) * (2/5) + tradeWinPercent * (3/10) + dayWinPercent * (3/10))
  let totalsCheck : TotalsCheck :=
    { netPnlFromScrips := r2 ((scripSummary.map (fun r => r.netRealized)).sum)
      chargesFromScrips := r2 ((scripSummary.map (fun r => r.charges)).sum) }
  { netPnl := r2 netPnl
    pnlBasis := "PAIRED_RAW"
    totalsCheck := totalsCheck
    tradeWinPercent := r2 tradeWinPercent
    profitFactor := profitFactor
    dayWinPercent := r2 dayWinPercent
    avgWinLoss := { avgWin := r2 avgWin, avgLoss := r2 avgLoss }
    upholicScore := max 0 (round upholicScore)
    upholicPointers := { patience := 80, demonFinder := demonFinder, planOfAction := planOfAction }
    trades := tag.tagged
    tradeDates := tradeDatesOf roundTrips
    empty := roundTrips.isEmpty
    totalBadTradeCost := r2 tag.totalBadCost
    totalGoodTradeProfit := r2 tag.totalGoodProfit
    badTradeCounts := tag.badSum
    goodTradeCounts := tag.goodSum
    standardDemonsOut := standardDemons
    standardGoodOut := standardGood
    enteredTooSoonCount := tag.tooSoon
    scripSummary := scripSummary
    pairedTotals :=
      { buyQty := pairedRaw.buyQty
        sellQty := pairedRaw.sellQty
        avgBuy := pairedRaw.avgBuy
        avgSell := pairedRaw.avgSell
        charges := pairedRaw.charges
        netPnl := pairedRaw.netPnl }
    openPositions := openPositions }

/-! ### Sample inputs used by witnesses and counterexamples -/

/-- Convenience constructor for a fully-specified execution row. -/
def sampleTrade (d : ℕ) (tm : Option ℕ) (s : String) (dir : Side) (q : ℤ) (p : ℚ)
    (c : ℚ := 0) : Trade :=
  { Date := d, Time := tm, Symbol := s, Direction := some dir, Quantity := q,
    Price := some p, Charges := c }

/-- Buy 1 then sell 1, fully matched: one round trip, nothing open. -/
def exTwoLegs : List Trade :=
  [sampleTrade 0 (some 600) "S" Side.Buy 1 10,
   sampleTrade 0 (some 601) "S" Side.Sell 1 10]

/-- The C4 scenario: Buy 50 at 10, Buy 50 at 11, Sell 80 at 12. -/
def exScenario4 : List Trade :=
  [sampleTrade 0 (some 600) "S" Side.Buy 50 10,
   sampleTrade 0 (some 601) "S" Side.Buy 50 11,
   sampleTrade 0 (some 602) "S" Side.Sell 80 12]

/-- A sell of 2 (charges 2, full quantity 2) that closes an open buy of 1 and
flips; a later buy of 1 closes the flipped remainder. -/
def exFlip : List Trade :=
  [sampleTrade 0 (some 600) "S" Side.Buy 1 10,
   { sampleTrade 0 (some 601) "S" Side.Sell 2 10 2 with fullQty := some 2 },
   sampleTrade 0 (some 602) "S" Side.Buy 1 10]

/-- A row with a missing (zero) quantity but nonzero charges on a symbol that
is paired by other rows. -/
def badQtyRow : Trade :=
  { Date := 0, Time := some 603, Symbol := "S", Direction := some Side.Buy,
    Quantity := 0, Price := some 5, Charges := 100 }

/-- `exTwoLegs` plus the degenerate row. -/
def exWithBadRow : List Trade := exTwoLegs ++ [badQtyRow]

/-- Three same-timestamp rows on one symbol. -/
def exTied1 : List Trade :=
  [sampleTrade 0 (some 600) "S" Side.Buy 1 10,
   sampleTrade 0 (some 600) "S" Side.Buy 1 20,
   sampleTrade 0 (some 600) "S" Side.Sell 1 15]

/-- A permutation of `exTied1` (first two rows swapped). -/
def exTied2 : List Trade :=
  [sampleTrade 0 (some 600) "S" Side.Buy 1 20,
   sampleTrade 0 (some 600) "S" Side.Buy 1 10,
   sampleTrade 0 (some 600) "S" Side.Sell 1 15]

/-- One profitable round trip: gross profit positive, gross loss zero. -/
def exProfitOnly : List Trade :=
  [sampleTrade 0 (some 600) "S" Side.Buy 100 10,
   sampleTrade 0 (some 610) "S" Side.Sell 100 12]

/-- The C7 scenario with arbitrary per-leg charges: Buy 100 XYZ at 10 at
09:16 (minute 556), Sell 100 XYZ at 12 at 09:20 (minute 560). -/
def exScenario7 (c1 c2 : ℚ) : List Trade :=
  [sampleTrade 0 (some 556) "XYZ" Side.Buy 100 10 c1,
   sampleTrade 0 (some 560) "XYZ" Side.Sell 100 12 c2]

/-! ### Per-symbol quantity and charge bookkeeping used by conservation
claims -/

/-- Sum of matched (entry-leg) quantities of the round trips of one symbol. -/
def rtMatchedQtySum (rts : List RoundTrip) (s : String) : ℤ :=
  ((rts.filter (fun rt => rt.symbol == s)).map (fun rt => rt.entry.Quantity)).sum

/-- Sum of the quantities left in one symbol's open-leg queue. -/
def openQtySum (m : LegMap) (s : String) : ℤ :=
  (((findLegs m s).getD []).map (fun l => l.Quantity)).sum

/-- Total quantity of the rows of one symbol. -/
def symQtySum (trades : List Trade) (s : String) : ℤ :=
  ((trades.filter (fun t => t.Symbol == s)).map (fun t => t.Quantity)).sum

/-- Total charges attributed to round-trip legs. -/
def tripChargesSum (rts : List RoundTrip) : ℚ :=
  (rts.map (fun rt => rt.entry.Charges + rt.exit.Charges)).sum

/-- Total charges sitting on open legs. -/
def openChargesSum (m : LegMap) : ℚ :=
  (m.map (fun p => (p.2.map (fun l => l.Charges)).sum)).sum

/-- Total charges of the input rows. -/
def inputChargesSum (trades : List Trade) : ℚ :=
  (trades.map (fun t => t.Charges)).sum

/-- A round trip whose derived classification booleans agree with the
classification formulas of the tagger. -/
def ClassOk (rt : RoundTrip) : Prop :=
  (¬(rt.isBadTrade = true ∧ rt.isGoodTrade = true)) ∧
  (rt.isBadTrade = true ↔ (rt.DemonArr ≠ [] ∧ rt.PnL < 0)) ∧
  (rt.isGoodTrade = true ↔ (2 ≤ rt.GoodPracticeArr.length ∧ rt.DemonArr = [] ∧
    (0 < rt.PnL ∨ "STOP LOSS RESPECTED" ∈ rt.GoodPracticeArr)))

/-- A default round trip, used to pick an element out of a computed list in
closed witness statements. -/
def rtDefault : RoundTrip :=
  { symbol := ""
    entry := { Date := 0, Time := none, Symbol := "", Direction := none,
               Quantity := 0, Price := none }
    exit := { Date := 0, Time := none, Symbol := "", Direction := none,
              Quantity := 0, Price := none }
    legs := []
    PnL := 0
    NetPnL := 0
    holdingMinutes := 0 }

/-- The open-legs queue of one symbol in a pairing state. -/
def legsOf (st : PairState) (s : String) : List Trade := (findLegs st.openLegs s).getD []

/-- The conserved per-symbol quantity measure of a pairing state: twice the
matched quantity plus the open quantity. -/
def measureQty (st : PairState) (s : String) : ℤ :=
  2 * rtMatchedQtySum st.roundTrips s + ((legsOf st s).map (fun l => l.Quantity)).sum

/-- Well-formedness of a round trip: opposite sides, equal slice quantities,
non-negative holding time. -/
def rtWF (rt : RoundTrip) : Prop :=
  rt.entry.Direction ≠ rt.exit.Direction ∧ rt.entry.Quantity = rt.exit.Quantity ∧
    0 ≤ rt.holdingMinutes

/-- Loop invariant of the FIFO fold: every open leg is dated no later than
`b`, every queue is single-sided, and every emitted trip is well-formed. -/
def StInv (b : ℕ) (st : PairState) : Prop :=
  (∀ p ∈ st.openLegs, ∀ l ∈ p.2, dtMin l ≤ b) ∧
  (∀ p ∈ st.openLegs, ∀ l1 ∈ p.2, ∀ l2 ∈ p.2, l1.Direction = l2.Direction) ∧
  (∀ rt ∈ st.roundTrips, rtWF rt)

/-! ### Arithmetic of the inner closing loop -/

/-- The quantity ledger of the closing loop: the emitted slices consume the
leftover incoming quantity and remove the same amount from the queue. -/
theorem closeLoop_qty (t : Trade) :
    ∀ (q : ℤ) (legs : List Trade),
      ((closeLoop t q legs).1.map (fun rt => rt.entry.Quantity)).sum
          = q - (closeLoop t q legs).2.2 ∧
      ((closeLoop t q legs).2.1.map (fun l => l.Quantity)).sum
          = (legs.map (fun l => l.Quantity)).sum - (q - (closeLoop t q legs).2.2) := by
  intro q legs
  induction legs generalizing q with
  | nil => simp [closeLoop]
  | cons e rest ih =>
    by_cases hq : q ≤ 0
    · simp [closeLoop, hq]
    · by_cases hc : min q e.Quantity < e.Quantity
      · simp only [closeLoop, if_neg hq, if_pos hc]
        simp [mkTrip]
        omega
      · have hce : min q e.Quantity = e.Quantity :=
          le_antisymm (min_le_right _ _) (not_lt.mp hc)
        obtain ⟨ih1, ih2⟩ := ih (q - min q e.Quantity)
        simp only [closeLoop, if_neg hq, if_neg hc]
        simp only [List.map_cons, List.sum_cons, mkTrip]
        constructor
        · omega
        · omega

/-- The leftover incoming quantity never becomes negative. -/
theorem closeLoop_q_nonneg (t : Trade) :
    ∀ (q : ℤ) (legs : List Trade), 0 ≤ q → 0 ≤ (closeLoop t q legs).2.2 := by
  intro q legs
  induction legs generalizing q with
  | nil => intro h; simpa [closeLoop] using h
  | cons e rest ih =>
    intro h
    by_cases hq : q ≤ 0
    · simpa [closeLoop, hq] using h
    · by_cases hc : min q e.Quantity < e.Quantity
      · simp only [closeLoop, if_neg hq, if_pos hc]
        have : min q e.Quantity ≤ q := min_le_left _ _
        omega
      · simp only [closeLoop, if_neg hq, if_neg hc]
        exact ih _ (by have : min q e.Quantity ≤ q := min_le_left _ _; omega)

/-- Positivity of queue legs is preserved by the closing loop. -/
theorem closeLoop_legs_pos (t : Trade) :
    ∀ (q : ℤ) (legs : List Trade), (∀ l ∈ legs, 0 < l.Quantity) →
      ∀ l ∈ (closeLoop t q legs).2.1, 0 < l.Quantity := by
  intro q legs
  induction legs generalizing q with
  | nil => intro _ l hl; simp [closeLoop] at hl
  | cons e rest ih =>
    intro h l hl
    by_cases hq : q ≤ 0
    · simp only [closeLoop, if_pos hq] at hl
      exact h l hl
    · by_cases hc : min q e.Quantity < e.Quantity
      · simp only [closeLoop, if_neg hq, if_pos hc] at hl
        rcases List.mem_cons.mp hl with h1 | h2
        · subst h1; simpa using hc
        · exact h l (List.mem_cons_of_mem _ h2)
      · simp only [closeLoop, if_neg hq, if_neg hc] at hl
        exact ih _ (fun x hx => h x (List.mem_cons_of_mem _ hx)) l hl

/-- Every slice of one closing event carries the incoming trade's symbol. -/
theorem closeLoop_trips_symbol (t : Trade) :
    ∀ (q : ℤ) (legs : List Trade), ∀ rt ∈ (closeLoop t q legs).1,
      rt.symbol = t.Symbol := by
  intro q legs
  induction legs generalizing q with
  | nil => intro rt h; simp [closeLoop] at h
  | cons e rest ih =>
    intro rt h
    by_cases hq : q ≤ 0
    · simp [closeLoop, hq] at h
    · by_cases hc : min q e.Quantity < e.Quantity
      · simp only [closeLoop, if_neg hq, if_pos hc, List.mem_singleton] at h
        subst h; rfl
      · simp only [closeLoop, if_neg hq, if_neg hc, List.mem_cons] at h
        rcases h with h1 | h2
        · subst h1; rfl
        · exact ih _ rt h2

/-! ### Lookup lemmas for the open-legs map -/

/-- `ensureKey` leaves an existing binding alone and seeds a missing one. -/
theorem findLegs_ensureKey_self (m : LegMap) (s : String) :
    findLegs (ensureKey m s) s = some ((findLegs m s).getD []) := by
  unfold findLegs ensureKey
  cases h : m.find? (fun p => p.1 == s) with
  | some p => simp [h]
  | none => simp [h, List.find?_append]

/-- `ensureKey` does not touch other keys. -/
theorem findLegs_ensureKey_ne (m : LegMap) (s s' : String) (h : s' ≠ s) :
    findLegs (ensureKey m s) s' = findLegs m s' := by
  have hb : (s == s') = false := beq_eq_false_iff_ne.mpr (Ne.symm h)
  unfold findLegs ensureKey
  split
  · rfl
  · rw [List.find?_append]
    cases h2 : m.find? (fun p => p.1 == s') with
    | some p => simp [h2]
    | none => simp [h2, List.find?, hb]

/-- After `ensureKey`, the key is present. -/
theorem ensureKey_hasKey (m : LegMap) (s : String) :
    (((ensureKey m s).find? (fun p => p.1 == s)).isSome) = true := by
  unfold ensureKey
  cases hfind : m.find? (fun p => p.1 == s) with
  | some p => simp [hfind]
  | none => simp [hfind, List.find?_append, List.find?]

/-- Overwriting a present key is observable at that key. -/
theorem findLegs_updateKey_self (m : LegMap) (s : String) (v : List Trade)
    (h : ((m.find? (fun p => p.1 == s)).isSome) = true) :
    findLegs (updateKey m s v) s = some v := by
  induction m with
  | nil => simp [List.find?] at h
  | cons p rest ih =>
    by_cases hp : p.1 = s
    · unfold updateKey findLegs
      simp [hp, List.find?]
    · have h' : ((rest.find? (fun p => p.1 == s)).isSome) = true := by
        rw [List.find?_cons_of_neg] at h
        · exact h
        · simp [hp]
      unfold updateKey findLegs
      rcases p with ⟨k, old⟩
      simp only at hp
      rw [if_neg (by simpa using hp)]
      rw [List.find?_cons_of_neg _ (by simpa using hp)]
      exact ih h'

/-- Overwriting one key does not touch other keys. -/
theorem findLegs_updateKey_ne (m : LegMap) (s : String) (v : List Trade) (s' : String)
    (h : s' ≠ s) : findLegs (updateKey m s v) s' = findLegs m s' := by
  induction m with
  | nil => rfl
  | cons p rest ih =>
    rcases p with ⟨k, old⟩
    by_cases hk : k = s
    · unfold updateKey
      rw [if_pos (by simpa using hk)]
      unfold findLegs
      rw [List.find?_cons_of_neg _ (by subst hk; simpa using Ne.symm h),
        List.find?_cons_of_neg _ (by subst hk; simpa using Ne.symm h)]
    · unfold updateKey
      rw [if_neg (by simpa using hk)]
      by_cases hk' : k = s'
      · unfold findLegs
        subst hk'
        rw [List.find?_cons_of_pos _ (by simp), List.find?_cons_of_pos _ (by simp)]
      · unfold findLegs
        rw [List.find?_cons_of_neg _ (by simpa using hk'),
          List.find?_cons_of_neg _ (by simpa using hk')]
        exact ih

/-! ### The conservation measure through one step of the FIFO loop -/

/-- Matched-quantity bookkeeping distributes over appended trip lists. -/
theorem rtMatchedQtySum_append (a b : List RoundTrip) (s : String) :
    rtMatchedQtySum (a ++ b) s = rtMatchedQtySum a s + rtMatchedQtySum b s := by
  simp [rtMatchedQtySum, List.filter_append]

/-- Trips all carrying the symbol are all counted. -/
theorem rtMatchedQtySum_all (rts : List RoundTrip) (s : String)
    (h : ∀ rt ∈ rts, rt.symbol = s) :
    rtMatchedQtySum rts s = (rts.map (fun rt => rt.entry.Quantity)).sum := by
  unfold rtMatchedQtySum
  rw [List.filter_eq_self.mpr (fun rt hrt => by simp [h rt hrt])]

/-- Trips all carrying another symbol are not counted. -/
theorem rtMatchedQtySum_zero (rts : List RoundTrip) (s : String)
    (h : ∀ rt ∈ rts, rt.symbol ≠ s) :
    rtMatchedQtySum rts s = 0 := by
  unfold rtMatchedQtySum
  rw [List.filter_eq_nil_iff.mpr (fun rt hrt => by simp [h rt hrt])]
  rfl

/-- One step of the FIFO loop moves exactly the quantity of the processed
trade into the per-symbol measure. -/
theorem stepTrade_measure (st : PairState) (t : Trade) (s : String)
    (ht : 0 < t.Quantity) :
    measureQty (stepTrade st t) s
      = measureQty st s + (if t.Symbol = s then t.Quantity else 0) := by
  have hself := findLegs_ensureKey_self st.openLegs t.Symbol
  have hkey := ensureKey_hasKey st.openLegs t.Symbol
  simp only [stepTrade]
  rw [show findLegs (ensureKey st.openLegs t.Symbol) t.Symbol
        = some (legsOf st t.Symbol) from hself]
  simp only [Option.getD_some]
  cases hL : legsOf st t.Symbol with
  | nil =>
    by_cases hs : t.Symbol = s
    · subst hs
      unfold measureQty legsOf
      simp only []
      rw [findLegs_updateKey_self _ _ _ hkey]
      simp [pushLeg, hL, legsOf] at hL ⊢
      rw [show (findLegs st.openLegs t.Symbol).getD [] = [] from hL]
      simp
    · unfold measureQty legsOf
      simp only []
      rw [findLegs_updateKey_ne _ _ _ _ (Ne.symm hs), findLegs_ensureKey_ne _ _ _ (Ne.symm hs)]
      simp [if_neg hs]
  | cons hd rest =>
    simp only []
    by_cases hdir : t.Direction ≠ hd.Direction
    · -- closing branch
      rw [if_pos hdir]
      have hq0 : (0 : ℤ) ≤ t.Quantity := le_of_lt ht
      obtain ⟨hq1, hq2⟩ := closeLoop_qty t t.Quantity (hd :: rest)
      have hqn := closeLoop_q_nonneg t t.Quantity (hd :: rest) hq0
      have hsym := closeLoop_trips_symbol t t.Quantity (hd :: rest)
      by_cases hs : t.Symbol = s
      · subst hs
        unfold measureQty legsOf
        simp only []
        rw [findLegs_updateKey_self _ _ _ hkey]
        rw [rtMatchedQtySum_append, rtMatchedQtySum_all _ _ hsym]
        simp only [Option.getD_some]
        rw [show (findLegs st.openLegs t.Symbol).getD [] = hd :: rest from hL]
        simp only [if_true]
        by_cases hrem : 0 < (closeLoop t t.Quantity (hd :: rest)).2.2
        · rw [if_pos hrem]
          rw [List.map_append, List.sum_append]
          have hrq : (remainderLeg t (closeLoop t t.Quantity (hd :: rest)).2.2).Quantity
              = (closeLoop t t.Quantity (hd :: rest)).2.2 := rfl
          simp only [List.map_cons, List.map_nil, List.sum_cons, List.sum_nil, hrq]
          try simp only [List.map_cons, List.sum_cons] at hq2
          omega
        · rw [if_neg hrem]
          have hzero : (closeLoop t t.Quantity (hd :: rest)).2.2 = 0 :=
            le_antisymm (not_lt.mp hrem) hqn
          try simp only [List.map_cons, List.sum_cons] at hq2 ⊢
          omega
      · unfold measureQty legsOf
        simp only []
        rw [findLegs_updateKey_ne _ _ _ _ (Ne.symm hs), findLegs_ensureKey_ne _ _ _ (Ne.symm hs)]
        rw [rtMatchedQtySum_append,
          rtMatchedQtySum_zero (closeLoop t t.Quantity (hd :: rest)).1 s
            (fun rt hrt => by rw [hsym rt hrt]; exact hs)]
        simp [if_neg hs]
    · -- extend branch
      rw [if_neg hdir]
      by_cases hs : t.Symbol = s
      · subst hs
        unfold measureQty legsOf
        simp only []
        rw [findLegs_updateKey_self _ _ _ hkey]
        simp only [Option.getD_some]
        rw [show (findLegs st.openLegs t.Symbol).getD [] = hd :: rest from hL]
        simp [pushLeg]
        omega
      · unfold measureQty legsOf
        simp only []
        rw [findLegs_updateKey_ne _ _ _ _ (Ne.symm hs), findLegs_ensureKey_ne _ _ _ (Ne.symm hs)]
        simp [if_neg hs]

/-- Per-symbol total quantity of a list, one row at a time. -/
theorem symQtySum_cons (t : Trade) (l : List Trade) (s : String) :
    symQtySum (t :: l) s = (if t.Symbol = s then t.Quantity else 0) + symQtySum l s := by
  unfold symQtySum
  rw [List.filter_cons]
  by_cases h : t.Symbol = s <;> simp [h]

/-- Per-symbol total quantity is invariant under permutation. -/
theorem symQtySum_perm {l1 l2 : List Trade} (h : l1.Perm l2) (s : String) :
    symQtySum l1 s = symQtySum l2 s :=
  ((h.filter _).map _).sum_eq

/-- The conservation measure accumulates exactly the per-symbol quantity of
the processed rows. -/
theorem foldl_measure (s : String) :
    ∀ (l : List Trade) (st : PairState), (∀ t ∈ l, 0 < t.Quantity) →
      measureQty (l.foldl stepTrade st) s = measureQty st s + symQtySum l s := by
  intro l
  induction l with
  | nil =>
    intro st _
    simp [symQtySum]
  | cons t rest ih =>
    intro st h
    rw [List.foldl_cons, ih (stepTrade st t) (fun x hx => h x (List.mem_cons_of_mem _ hx)),
      stepTrade_measure st t s (h t (List.mem_cons_self t rest)), symQtySum_cons]
    omega

/-- Claim C1 (corrected / amended): FIFO conservation with both legs counted.
For every input whose rows have positive quantities and every symbol, twice
the sum of matched round-trip quantities (each slice consumes quantity from
its entry row and from its exit row) plus the quantity left on open legs
equals the total quantity of the valid (filter-surviving) rows of that
symbol.  In particular a closing trade whose quantity exceeds the whole open
queue pushes its remainder as a new open leg on the new side, which is what
keeps the ledger balanced. -/
theorem C1_fifo_conservation (trades : List Trade) (s : String)
    (hq : ∀ t ∈ trades, 0 < t.Quantity) :
    2 * rtMatchedQtySum (pairRoundTripsAndOpen trades).roundTrips s
      + openQtySum (pairRoundTripsAndOpen trades).openLegsBySymbol s
      = symQtySum (trades.filter validRow) s := by
  have hperm := List.perm_insertionSort byDt (trades.filter validRow)
  have hmem : ∀ t ∈ List.insertionSort byDt (trades.filter validRow), 0 < t.Quantity := by
    intro t htm
    exact hq t (List.mem_of_mem_filter (hperm.mem_iff.mp htm))
  have hfold := foldl_measure s (List.insertionSort byDt (trades.filter validRow)) ⟨[], []⟩ hmem
  have h0 : measureQty ⟨[], []⟩ s = 0 := by
    simp [measureQty, rtMatchedQtySum, legsOf, findLegs, List.find?]
  unfold pairRoundTripsAndOpen
  simp only []
  rw [show 2 * rtMatchedQtySum
        ((List.insertionSort byDt (trades.filter validRow)).foldl stepTrade ⟨[], []⟩).roundTrips s
      + openQtySum
          ((List.insertionSort byDt (trades.filter validRow)).foldl stepTrade ⟨[], []⟩).openLegs s
      = measureQty ((List.insertionSort byDt (trades.filter validRow)).foldl stepTrade ⟨[], []⟩) s
    from rfl]
  rw [hfold, h0, symQtySum_perm hperm]
  omega

/-- Witness for the amended C1 on the C4 scenario: matched 50 and 30 twice
over, plus 20 open, equals the 180 total quantity of the three rows. -/
theorem C1_fifo_conservation_witness :
    (∀ t ∈ exScenario4, 0 < t.Quantity) ∧
    2 * rtMatchedQtySum (pairRoundTripsAndOpen exScenario4).roundTrips "S"
      + openQtySum (pairRoundTripsAndOpen exScenario4).openLegsBySymbol "S"
      = symQtySum (exScenario4.filter validRow) "S" :=
  ⟨by decide, C1_fifo_conservation exScenario4 "S" (by decide)⟩

/-- Exit-side pro-rated charges of one closing event: the emitted slices
carry `Charges * consumed / fullQty`. -/
theorem closeLoop_exit_charges (t : Trade) (F : ℤ) (hF : 0 < F)
    (hfq : t.fullQty = some F) :
    ∀ (q : ℤ) (legs : List Trade),
      ((closeLoop t q legs).1.map (fun rt => rt.exit.Charges)).sum
        = t.Charges * (((q - (closeLoop t q legs).2.2 : ℤ) : ℚ)) / F := by
  intro q legs
  induction legs generalizing q with
  | nil => simp [closeLoop]
  | cons e rest ih =>
    have hEx : ∀ c : ℤ, (mkTrip t e c).exit.Charges = t.Charges * (c : ℚ) / F := by
      intro c
      show prorate t.Charges c t.fullQty = _
      rw [hfq]
      simp only [prorate]
      rw [if_pos hF, if_neg (not_le.mpr hF)]
    by_cases hq : q ≤ 0
    · simp [closeLoop, hq]
    · by_cases hc : min q e.Quantity < e.Quantity
      · simp only [closeLoop, if_neg hq, if_pos hc, List.map_cons, List.map_nil,
          List.sum_cons, List.sum_nil, hEx]
        ring
      · obtain ih' := ih (q - min q e.Quantity)
        simp only [closeLoop, if_neg hq, if_neg hc, List.map_cons, List.sum_cons, hEx]
        rw [ih']
        have hFne : (F : ℚ) ≠ 0 := by positivity
        field_simp
        ring

/-- Claim C2 (corrected / amended): at the moment a closing trade with
`_fullQty` equal to its (positive) quantity is consumed against the queue,
charge conservation holds exactly: the pro-rated charges of its exit slices
plus the charges written onto the flipped remainder leg (if any) sum to the
trade's original charges, with no rounding error.  (The counterexample shows
conservation then fails once that flipped remainder leg is matched later,
because its already-pro-rated charges are pro-rated a second time.) -/
theorem C2_closing_event_charges (t : Trade) (legs : List Trade)
    (hfq : t.fullQty = some t.Quantity) (hq : 0 < t.Quantity) :
    ((closeLoop t t.Quantity legs).1.map (fun rt => rt.exit.Charges)).sum
      + (if 0 < (closeLoop t t.Quantity legs).2.2 then
          (remainderLeg t (closeLoop t t.Quantity legs).2.2).Charges else 0)
      = t.Charges := by
  have h1 := closeLoop_exit_charges t t.Quantity hq hfq t.Quantity legs
  have hqn := closeLoop_q_nonneg t t.Quantity legs (le_of_lt hq)
  have hQne : ((t.Quantity : ℤ) : ℚ) ≠ 0 := by
    have : (0 : ℚ) < ((t.Quantity : ℤ) : ℚ) := by exact_mod_cast hq
    exact ne_of_gt this
  by_cases hrem : 0 < (closeLoop t t.Quantity legs).2.2
  · rw [if_pos hrem, h1]
    have h2 : (remainderLeg t (closeLoop t t.Quantity legs).2.2).Charges
        = t.Charges * (((closeLoop t t.Quantity legs).2.2 : ℤ) : ℚ) / t.Quantity := by
      show prorate t.Charges _ t.fullQty = _
      rw [hfq]
      simp only [prorate]
      rw [if_pos hq, if_neg (not_le.mpr hq)]
    rw [h2]
    field_simp
    ring
  · rw [if_neg hrem, h1]
    have hzero : (closeLoop t t.Quantity legs).2.2 = 0 :=
      le_antisymm (not_lt.mp hrem) hqn
    rw [hzero]
    field_simp

/-- Witness for the amended C2: a sell of 2 with charges 2 and full quantity
2 closing a queue holding a buy of 1 — the exit slice gets charge 1 and the
flipped remainder gets charge 1, together the original 2. -/
theorem C2_closing_event_charges_witness :
    ({ sampleTrade 0 (some 601) "S" Side.Sell 2 10 2 with fullQty := some 2 : Trade}.fullQty
        = some { sampleTrade 0 (some 601) "S" Side.Sell 2 10 2 with fullQty := some 2 : Trade}.Quantity) ∧
    (0 : ℤ) < { sampleTrade 0 (some 601) "S" Side.Sell 2 10 2 with fullQty := some 2 : Trade}.Quantity ∧
    ((closeLoop { sampleTrade 0 (some 601) "S" Side.Sell 2 10 2 with fullQty := some 2 : Trade} 2
          [pushLeg (sampleTrade 0 (some 600) "S" Side.Buy 1 10)]).1.map
        (fun rt => rt.exit.Charges)).sum
      + (if 0 < (closeLoop { sampleTrade 0 (some 601) "S" Side.Sell 2 10 2 with fullQty := some 2 : Trade} 2
            [pushLeg (sampleTrade 0 (some 600) "S" Side.Buy 1 10)]).2.2 then
          (remainderLeg { sampleTrade 0 (some 601) "S" Side.Sell 2 10 2 with fullQty := some 2 : Trade}
            (closeLoop { sampleTrade 0 (some 601) "S" Side.Sell 2 10 2 with fullQty := some 2 : Trade} 2
              [pushLeg (sampleTrade 0 (some 600) "S" Side.Buy 1 10)]).2.2).Charges else 0)
      = { sampleTrade 0 (some 601) "S" Side.Sell 2 10 2 with fullQty := some 2 : Trade}.Charges :=
  ⟨by decide, by decide,
    C2_closing_event_charges _ _ (by decide) (by decide)⟩

/-! ### The FIFO loop invariants: bounded dates, single-sided queues,
well-formed trips -/

/-- Membership in `ensureKey`. -/
theorem mem_ensureKey (m : LegMap) (s : String) (p : String × List Trade)
    (h : p ∈ ensureKey m s) : p ∈ m ∨ p = (s, []) := by
  unfold ensureKey at h
  split at h
  · exact Or.inl h
  · rcases List.mem_append.mp h with h1 | h2
    · exact Or.inl h1
    · exact Or.inr (List.mem_singleton.mp h2)

/-- Membership in `updateKey`. -/
theorem mem_updateKey (m : LegMap) (s : String) (v : List Trade) (p : String × List Trade)
    (h : p ∈ updateKey m s v) : p.2 = v ∨ p ∈ m := by
  induction m with
  | nil => simp [updateKey] at h
  | cons q rest ih =>
    rcases q with ⟨k, old⟩
    unfold updateKey at h
    split at h
    · rcases List.mem_cons.mp h with h1 | h2
      · subst h1; exact Or.inl rfl
      · exact Or.inr (List.mem_cons_of_mem _ h2)
    · rcases List.mem_cons.mp h with h1 | h2
      · subst h1; exact Or.inr (List.mem_cons_self _ _)
      · rcases ih h2 with h3 | h4
        · exact Or.inl h3
        · exact Or.inr (List.mem_cons_of_mem _ h4)

/-- A successful lookup exposes an element of the map. -/
theorem findLegs_mem (m : LegMap) (s : String) (legs : List Trade)
    (h : findLegs m s = some legs) : ∃ k, (k, legs) ∈ m := by
  unfold findLegs at h
  cases hf : m.find? (fun p => p.1 == s) with
  | none => rw [hf] at h; simp at h
  | some p =>
    rw [hf] at h
    simp only [Option.map] at h
    injection h with h
    refine ⟨p.1, ?_⟩
    have hp := List.mem_of_find?_eq_some hf
    rwa [show (p.1, legs) = p by rw [← h]]

/-- The closing loop preserves any per-leg predicate that ignores the
quantity field. -/
theorem closeLoop_legs_pred (t : Trade) (P : Trade → Prop)
    (hP : ∀ e c, P e → P { e with Quantity := c }) :
    ∀ (q : ℤ) (legs : List Trade), (∀ l ∈ legs, P l) →
      ∀ l ∈ (closeLoop t q legs).2.1, P l := by
  intro q legs
  induction legs generalizing q with
  | nil => intro _ l hl; simp [closeLoop] at hl
  | cons e rest ih =>
    intro h l hl
    by_cases hq : q ≤ 0
    · simp only [closeLoop, if_pos hq] at hl
      exact h l hl
    · by_cases hc : min q e.Quantity < e.Quantity
      · simp only [closeLoop, if_neg hq, if_pos hc] at hl
        rcases List.mem_cons.mp hl with h1 | h2
        · subst h1
          exact hP e _ (h e (List.mem_cons_self _ _))
        · exact h l (List.mem_cons_of_mem _ h2)
      · simp only [closeLoop, if_neg hq, if_neg hc] at hl
        exact ih _ (fun x hx => h x (List.mem_cons_of_mem _ hx)) l hl

/-- A positive leftover means the queue was exhausted. -/
theorem closeLoop_flip_empty (t : Trade) :
    ∀ (q : ℤ) (legs : List Trade), 0 < (closeLoop t q legs).2.2 →
      (closeLoop t q legs).2.1 = [] := by
  intro q legs
  induction legs generalizing q with
  | nil => intro _; rfl
  | cons e rest ih =>
    intro hrem
    by_cases hq : q ≤ 0
    · simp only [closeLoop, if_pos hq] at hrem ⊢
      omega
    · by_cases hc : min q e.Quantity < e.Quantity
      · simp only [closeLoop, if_neg hq, if_pos hc] at hrem ⊢
        omega
      · simp only [closeLoop, if_neg hq, if_neg hc] at hrem ⊢
        exact ih _ hrem

/-- Every slice emitted while closing against a single-sided, date-bounded
queue is well-formed. -/
theorem closeLoop_trips_wf (t : Trade) (d : Option Side) (hd : t.Direction ≠ d)
    (b : ℕ) (hb : b ≤ dtMin t) :
    ∀ (q : ℤ) (legs : List Trade), (∀ l ∈ legs, l.Direction = d ∧ dtMin l ≤ b) →
      ∀ rt ∈ (closeLoop t q legs).1, rtWF rt := by
  intro q legs
  induction legs generalizing q with
  | nil => intro _ rt h; simp [closeLoop] at h
  | cons e rest ih =>
    intro h rt hrt
    have hwf : rtWF (mkTrip t e (min q e.Quantity)) := by
      obtain ⟨hdir, hdt⟩ := h e (List.mem_cons_self _ _)
      refine ⟨?_, rfl, ?_⟩
      · show e.Direction ≠ t.Direction
        rw [hdir]
        exact fun hcontra => hd hcontra.symm
      · show (0 : ℤ) ≤ (dtMin { t with
            Quantity := min q e.Quantity,
            Charges := prorate t.Charges (min q e.Quantity) t.fullQty } : ℤ)
          - (dtMin { e with
            Quantity := min q e.Quantity,
            Charges := prorate e.Charges (min q e.Quantity) e.fullQty } : ℤ)
        have h1 : dtMin { t with
            Quantity := min q e.Quantity,
            Charges := prorate t.Charges (min q e.Quantity) t.fullQty } = dtMin t := rfl
        have h2 : dtMin { e with
            Quantity := min q e.Quantity,
            Charges := prorate e.Charges (min q e.Quantity) e.fullQty } = dtMin e := rfl
        rw [h1, h2]
        omega
    by_cases hq : q ≤ 0
    · simp only [closeLoop, if_pos hq] at hrt
      simp at hrt
    · by_cases hc : min q e.Quantity < e.Quantity
      · simp only [closeLoop, if_neg hq, if_pos hc, List.mem_singleton] at hrt
        subst hrt
        exact hwf
      · simp only [closeLoop, if_neg hq, if_neg hc, List.mem_cons] at hrt
        rcases hrt with h1 | h2
        · subst h1; exact hwf
        · exact ih _ (fun x hx => h x (List.mem_cons_of_mem _ hx)) rt h2

/-- One step of the FIFO loop preserves the invariant, moving the date bound
up to the processed trade. -/
theorem stepTrade_inv (st : PairState) (t : Trade) (b : ℕ)
    (hb : b ≤ dtMin t) (hinv : StInv b st) : StInv (dtMin t) (stepTrade st t) := by
  obtain ⟨hbound, hside, hwf⟩ := hinv
  have hEnsure : ∀ p ∈ ensureKey st.openLegs t.Symbol,
      (∀ l ∈ p.2, dtMin l ≤ dtMin t) ∧
      (∀ l1 ∈ p.2, ∀ l2 ∈ p.2, l1.Direction = l2.Direction) := by
    intro p hp
    rcases mem_ensureKey _ _ _ hp with h1 | h2
    · exact ⟨fun l hl => le_trans (hbound p h1 l hl) hb, hside p h1⟩
    · subst h2; simp
  have hself := findLegs_ensureKey_self st.openLegs t.Symbol
  have hLmem : legsOf st t.Symbol = [] ∨
      ∃ k, (k, legsOf st t.Symbol) ∈ ensureKey st.openLegs t.Symbol := by
    right
    exact findLegs_mem _ _ _ hself
  simp only [stepTrade]
  rw [show findLegs (ensureKey st.openLegs t.Symbol) t.Symbol
        = some (legsOf st t.Symbol) from hself]
  simp only [Option.getD_some]
  have hLfacts : ∀ l ∈ legsOf st t.Symbol, dtMin l ≤ dtMin t := by
    rcases hLmem with h | ⟨k, hk⟩
    · rw [h]; intro l hl; simp at hl
    · exact fun l hl => (hEnsure _ hk).1 l hl
  have hLside : ∀ l1 ∈ legsOf st t.Symbol, ∀ l2 ∈ legsOf st t.Symbol,
      l1.Direction = l2.Direction := by
    rcases hLmem with h | ⟨k, hk⟩
    · rw [h]; intro l hl; simp at hl
    · exact fun l1 h1 l2 h2 => (hEnsure _ hk).2 l1 h1 l2 h2
  cases hL : legsOf st t.Symbol with
  | nil =>
    refine ⟨?_, ?_, fun rt hrt => hwf rt hrt⟩ <;>
    · intro p hp
      rcases mem_updateKey _ _ _ _ hp with h1 | h2
      · first
        | (intro l hl
           rw [h1] at hl
           rcases List.mem_singleton.mp hl with rfl
           exact le_of_eq rfl)
        | (intro l1 h1' l2 h2'
           rw [h1] at h1' h2'
           rcases List.mem_singleton.mp h1' with rfl
           rcases List.mem_singleton.mp h2' with rfl
           rfl)
      · rcases hEnsure p h2 with ⟨hb', hs'⟩
        first
        | exact fun l hl => hb' l hl
        | exact fun l1 h1' l2 h2' => hs' l1 h1' l2 h2'
  | cons hd rest =>
    simp only []
    rw [hL] at hLfacts hLside
    by_cases hdir : t.Direction ≠ hd.Direction
    · rw [if_pos hdir]
      have hlegsP : ∀ l ∈ hd :: rest, l.Direction = hd.Direction ∧ dtMin l ≤ dtMin t :=
        fun l hl => ⟨hLside l hl hd (List.mem_cons_self _ _), hLfacts l hl⟩
      have htripswf := closeLoop_trips_wf t hd.Direction hdir (dtMin t) (le_refl _)
        t.Quantity (hd :: rest) hlegsP
      have hlegsAfter : ∀ l ∈ (closeLoop t t.Quantity (hd :: rest)).2.1,
          l.Direction = hd.Direction ∧ dtMin l ≤ dtMin t := by
        refine closeLoop_legs_pred t _ ?_ t.Quantity (hd :: rest) hlegsP
        intro e c he
        exact he
      constructor
      · -- date bounds
        intro p hp
        rcases mem_updateKey _ _ _ _ hp with h1 | h2
        · intro l hl
          rw [h1] at hl
          by_cases hrem : 0 < (closeLoop t t.Quantity (hd :: rest)).2.2
          · rw [if_pos hrem] at hl
            rcases List.mem_append.mp hl with ha | hb'
            · exact (hlegsAfter l ha).2
            · rcases List.mem_singleton.mp hb' with rfl
              exact le_of_eq rfl
          · rw [if_neg hrem] at hl
            exact (hlegsAfter l hl).2
        · exact fun l hl => (hEnsure p h2).1 l hl
      constructor
      · -- single-sided queues
        intro p hp
        rcases mem_updateKey _ _ _ _ hp with h1 | h2
        · intro l1 h1' l2 h2'
          rw [h1] at h1' h2'
          by_cases hrem : 0 < (closeLoop t t.Quantity (hd :: rest)).2.2
          · rw [if_pos hrem, closeLoop_flip_empty t _ _ hrem] at h1' h2'
            simp only [List.nil_append, List.mem_singleton] at h1' h2'
            subst h1'; subst h2'; rfl
          · rw [if_neg hrem] at h1' h2'
            rw [(hlegsAfter l1 h1').1, (hlegsAfter l2 h2').1]
        · exact fun l1 h1' l2 h2' => (hEnsure p h2).2 l1 h1' l2 h2'
      · -- trips well-formed
        intro rt hrt
        rcases List.mem_append.mp hrt with h1 | h2
        · exact hwf rt h1
        · exact htripswf rt h2
    · rw [if_neg hdir]
      rw [not_not] at hdir
      refine ⟨?_, ?_, fun rt hrt => hwf rt hrt⟩
      · intro p hp
        rcases mem_updateKey _ _ _ _ hp with h1 | h2
        · intro l hl
          rw [h1] at hl
          rcases List.mem_append.mp hl with ha | hb'
          · exact hLfacts l ha
          · rcases List.mem_singleton.mp hb' with rfl
            exact le_of_eq rfl
        · exact fun l hl => (hEnsure p h2).1 l hl
      · intro p hp
        rcases mem_updateKey _ _ _ _ hp with h1 | h2
        · have hall : ∀ l ∈ hd :: rest ++ [pushLeg t], l.Direction = hd.Direction := by
            intro l hl
            simp only [List.mem_cons, List.mem_append, List.mem_singleton] at hl
            rcases hl with (rfl | hl2) | (rfl | hfalse)
            · rfl
            · exact hLside l (List.mem_cons_of_mem _ hl2) hd (List.mem_cons_self _ _)
            · show (pushLeg t).Direction = hd.Direction
              exact hdir
            · exact absurd hfalse (List.not_mem_nil l)
          intro l1 h1' l2 h2'
          rw [h1] at h1' h2'
          rw [hall l1 h1', hall l2 h2']
        · exact fun l1 h1' l2 h2' => (hEnsure p h2).2 l1 h1' l2 h2'

/-- Every trip produced by folding the FIFO step over a sorted row list is
well-formed. -/
theorem foldl_stepTrade_wf :
    ∀ (l : List Trade) (st : PairState) (b : ℕ),
      l.Pairwise byDt → (∀ x ∈ l, b ≤ dtMin x) → StInv b st →
      ∀ rt ∈ (l.foldl stepTrade st).roundTrips, rtWF rt := by
  intro l
  induction l with
  | nil => intro st b _ _ hinv; exact hinv.2.2
  | cons t rest ih =>
    intro st b hpair hbnd hinv
    rw [List.foldl_cons]
    have hb : b ≤ dtMin t := hbnd t (List.mem_cons_self _ _)
    have hstep := stepTrade_inv st t b hb hinv
    exact ih (stepTrade st t) (dtMin t)
      (List.pairwise_cons.mp hpair).2
      (fun x hx => (List.pairwise_cons.mp hpair).1 x hx)
      hstep

/-- One step of the FIFO loop keeps every queue leg positive and sided,
provided the incoming trade is. -/
theorem stepTrade_legs_good (st : PairState) (t : Trade)
    (ht : 0 < t.Quantity) (htd : t.Direction.isSome = true)
    (hprev : ∀ p ∈ st.openLegs, ∀ l ∈ p.2, 0 < l.Quantity ∧ l.Direction.isSome = true) :
    ∀ p ∈ (stepTrade st t).openLegs, ∀ l ∈ p.2,
      0 < l.Quantity ∧ l.Direction.isSome = true := by
  have hself := findLegs_ensureKey_self st.openLegs t.Symbol
  have hEnsure : ∀ p ∈ ensureKey st.openLegs t.Symbol, ∀ l ∈ p.2,
      0 < l.Quantity ∧ l.Direction.isSome = true := by
    intro p hp
    rcases mem_ensureKey _ _ _ hp with h1 | h2
    · exact hprev p h1
    · subst h2; intro l hl; simp at hl
  have hLgood : ∀ l ∈ legsOf st t.Symbol, 0 < l.Quantity ∧ l.Direction.isSome = true := by
    rcases findLegs_mem _ _ _ hself with ⟨k, hk⟩
    exact fun l hl => hEnsure _ hk l hl
  simp only [stepTrade]
  rw [show findLegs (ensureKey st.openLegs t.Symbol) t.Symbol
        = some (legsOf st t.Symbol) from hself]
  simp only [Option.getD_some]
  cases hL : legsOf st t.Symbol with
  | nil =>
    intro p hp
    rcases mem_updateKey _ _ _ _ hp with h1 | h2
    · intro l hl
      rw [h1] at hl
      rcases List.mem_singleton.mp hl with rfl
      exact ⟨ht, htd⟩
    · exact hEnsure p h2
  | cons hd rest =>
    rw [hL] at hLgood
    simp only []
    by_cases hdir : t.Direction ≠ hd.Direction
    · rw [if_pos hdir]
      have hclose1 := closeLoop_legs_pos t t.Quantity (hd :: rest)
        (fun l hl => (hLgood l hl).1)
      have hclose2 := closeLoop_legs_pred t (fun l => l.Direction.isSome = true)
        (fun e c he => he) t.Quantity (hd :: rest) (fun l hl => (hLgood l hl).2)
      intro p hp
      rcases mem_updateKey _ _ _ _ hp with h1 | h2
      · intro l hl
        rw [h1] at hl
        by_cases hrem : 0 < (closeLoop t t.Quantity (hd :: rest)).2.2
        · rw [if_pos hrem] at hl
          rcases List.mem_append.mp hl with ha | hb'
          · exact ⟨hclose1 l ha, hclose2 l ha⟩
          · rcases List.mem_singleton.mp hb' with rfl
            exact ⟨hrem, htd⟩
        · rw [if_neg hrem] at hl
          exact ⟨hclose1 l hl, hclose2 l hl⟩
      · exact hEnsure p h2
    · rw [if_neg hdir]
      intro p hp
      rcases mem_updateKey _ _ _ _ hp with h1 | h2
      · intro l hl
        rw [h1] at hl
        simp only [List.mem_cons, List.mem_append, List.mem_singleton] at hl
        rcases hl with (he | hl2) | (he | hfalse)
        · rw [he]; exact hLgood hd (List.mem_cons_self _ _)
        · exact hLgood l (List.mem_cons_of_mem _ hl2)
        · rw [he]; exact ⟨ht, htd⟩
        · exact absurd hfalse (List.not_mem_nil l)
      · exact hEnsure p h2

/-- All queue legs are positive and sided at the end of the fold. -/
theorem foldl_legs_good :
    ∀ (l : List Trade) (st : PairState),
      (∀ t ∈ l, 0 < t.Quantity ∧ t.Direction.isSome = true) →
      (∀ p ∈ st.openLegs, ∀ x ∈ p.2, 0 < x.Quantity ∧ x.Direction.isSome = true) →
      ∀ p ∈ (l.foldl stepTrade st).openLegs, ∀ x ∈ p.2,
        0 < x.Quantity ∧ x.Direction.isSome = true := by
  intro l
  induction l with
  | nil => intro st _ h; exact h
  | cons t rest ih =>
    intro st h hst
    rw [List.foldl_cons]
    exact ih (stepTrade st t)
      (fun x hx => h x (List.mem_cons_of_mem _ hx))
      (stepTrade_legs_good st t (h t (List.mem_cons_self _ _)).1
        (h t (List.mem_cons_self _ _)).2 hst)

/-- The invariant survives the whole fold (existential bound). -/
theorem foldl_stepTrade_inv :
    ∀ (l : List Trade) (st : PairState) (b : ℕ),
      l.Pairwise byDt → (∀ x ∈ l, b ≤ dtMin x) → StInv b st →
      ∃ b', StInv b' (l.foldl stepTrade st) := by
  intro l
  induction l with
  | nil => intro st b _ _ h; exact ⟨b, h⟩
  | cons t rest ih =>
    intro st b hpair hbnd hinv
    rw [List.foldl_cons]
    exact ih (stepTrade st t) (dtMin t)
      (List.pairwise_cons.mp hpair).2
      (fun x hx => (List.pairwise_cons.mp hpair).1 x hx)
      (stepTrade_inv st t b (hbnd t (List.mem_cons_self _ _)) hinv)

/-- Sum of the mapped negations. -/
theorem sum_map_neg_qty (l : List Trade) :
    (l.map (fun x => -x.Quantity)).sum = -((l.map (fun x => x.Quantity)).sum) := by
  induction l with
  | nil => simp
  | cons a t ih => simp [ih]; ring

/-- A nonempty list of positive quantities has a positive sum. -/
theorem sum_qty_pos (l : List Trade) (h : ∀ x ∈ l, 0 < x.Quantity) (hne : l ≠ []) :
    0 < (l.map (fun x => x.Quantity)).sum := by
  cases l with
  | nil => exact absurd rfl hne
  | cons a t =>
    have h1 : 0 < a.Quantity := h a (List.mem_cons_self _ _)
    have h2 : 0 ≤ (t.map (fun x => x.Quantity)).sum :=
      List.sum_nonneg (by
        intro x hx
        rcases List.mem_map.mp hx with ⟨y, hy, rfl⟩
        exact le_of_lt (h y (List.mem_cons_of_mem _ hy)))
    simp only [List.map_cons, List.sum_cons]
    omega

/-- Same-direction leg lists have the expected net quantity. -/
theorem netQty_all (legs : List Trade) (d : Side)
    (h : ∀ l ∈ legs, l.Direction = some d) :
    netQty legs = (if d = Side.Buy then (legs.map (fun l => l.Quantity)).sum
      else -((legs.map (fun l => l.Quantity)).sum)) := by
  unfold netQty
  cases d with
  | Buy =>
    rw [if_pos rfl]
    congr 1
    apply List.map_congr_left
    intro l hl
    simp [h l hl]
  | Sell =>
    rw [if_neg (by simp)]
    rw [show (legs.map fun l =>
        if l.Direction = some Side.Buy then l.Quantity else -l.Quantity)
      = legs.map (fun l => -l.Quantity) from List.map_congr_left (by
        intro l hl
        rw [h l hl]
        simp)]
    exact sum_map_neg_qty legs

/-- The head picked by `getD 0` belongs to a nonempty list. -/
theorem getD_zero_mem {α : Type} (l : List α) (d : α) (h : l ≠ []) : l.getD 0 d ∈ l := by
  cases l with
  | nil => exact absurd rfl h
  | cons a t => simp [List.getD]

/-- Claim C8 (confirmed): every round trip the pairing engine produces, from
any input, has opposite entry and exit sides, equal entry and exit quantities
(the matched slice), and a non-negative holding time in minutes — where a leg
with a missing time is dated at the start of its day (minute 0 of `dtMin`)
for both sorting and duration. -/
theorem C8_roundtrip_wf (trades : List Trade) (rt : RoundTrip)
    (h : rt ∈ (pairRoundTripsAndOpen trades).roundTrips) :
    rt.entry.Direction ≠ rt.exit.Direction ∧ rt.entry.Quantity = rt.exit.Quantity ∧
      0 ≤ rt.holdingMinutes := by
  have hsorted : (List.insertionSort byDt (trades.filter validRow)).Pairwise byDt :=
    List.sorted_insertionSort byDt (trades.filter validRow)
  have h0 : StInv 0 ⟨[], []⟩ :=
    ⟨fun p hp => by simp at hp, fun p hp => by simp at hp, fun x hx => by simp at hx⟩
  exact foldl_stepTrade_wf (List.insertionSort byDt (trades.filter validRow)) ⟨[], []⟩ 0
    hsorted (fun x _ => Nat.zero_le _) h0 rt h

/-- Witness for C8: the first trip of the C4 scenario is well-formed. -/
theorem C8_roundtrip_wf_witness :
    ((pairRoundTripsAndOpen exScenario4).roundTrips.getD 0 rtDefault).entry.Direction
        ≠ ((pairRoundTripsAndOpen exScenario4).roundTrips.getD 0 rtDefault).exit.Direction ∧
    ((pairRoundTripsAndOpen exScenario4).roundTrips.getD 0 rtDefault).entry.Quantity
        = ((pairRoundTripsAndOpen exScenario4).roundTrips.getD 0 rtDefault).exit.Quantity ∧
    0 ≤ ((pairRoundTripsAndOpen exScenario4).roundTrips.getD 0 rtDefault).holdingMinutes :=
  C8_roundtrip_wf exScenario4 _ (by
    have h1 : (pairRoundTripsAndOpen exScenario4).roundTrips ≠ [] := by
      intro hnil
      have hlen : (pairRoundTripsAndOpen exScenario4).roundTrips.length = 0 := by
        rw [hnil]; rfl
      revert hlen
      simp [pairRoundTripsAndOpen, List.insertionSort, List.orderedInsert, stepTrade,
        closeLoop, mkTrip, prorate, pushLeg, remainderLeg, ensureKey, updateKey, findLegs,
        validRow, byDt, dtMin, pV, exScenario4, sampleTrade, List.filter, List.find?]
    exact getD_zero_mem _ _ h1)

/-- Claim C10 (confirmed): for inputs whose rows have positive quantities,
every nonempty open-legs queue left by the FIFO loop is single-sided — all
its legs carry one common direction — so the net quantity is nonzero (the
zero-net branch of `buildOpen1` is unreachable), and the derived
`OpenPosition` has exactly that common side and the plain sum of the
remaining leg quantities. -/
theorem C10_single_sided_queue (trades : List Trade)
    (hq : ∀ t ∈ trades, 0 < t.Quantity) (s : String) (legs : List Trade)
    (hmem : (s, legs) ∈ (pairRoundTripsAndOpen trades).openLegsBySymbol)
    (hne : legs ≠ []) :
    ∃ d : Side, (∀ l ∈ legs, l.Direction = some d) ∧ netQty legs ≠ 0 ∧
      ∃ pos : OpenPosition, buildOpen1 s legs = some pos ∧ pos.side = d ∧
        pos.quantity = (legs.map (fun l => l.Quantity)).sum := by
  have hperm := List.perm_insertionSort byDt (trades.filter validRow)
  have hmemgood : ∀ t ∈ List.insertionSort byDt (trades.filter validRow),
      0 < t.Quantity ∧ t.Direction.isSome = true := by
    intro t htm
    have h2 := hperm.mem_iff.mp htm
    refine ⟨hq t (List.mem_of_mem_filter h2), ?_⟩
    have hv := (List.mem_filter.mp h2).2
    unfold validRow at hv
    simp only [Bool.and_eq_true] at hv
    exact hv.1.1.2
  have hgood := foldl_legs_good (List.insertionSort byDt (trades.filter validRow))
    ⟨[], []⟩ hmemgood (by intro p hp; simp at hp)
  have h0 : StInv 0 ⟨[], []⟩ :=
    ⟨fun p hp => by simp at hp, fun p hp => by simp at hp, fun x hx => by simp at hx⟩
  obtain ⟨b', hb'⟩ := foldl_stepTrade_inv (List.insertionSort byDt (trades.filter validRow))
    ⟨[], []⟩ 0 (List.sorted_insertionSort byDt (trades.filter validRow))
    (fun x _ => Nat.zero_le _) h0
  have hlegs_good := hgood (s, legs) hmem
  have hside := hb'.2.1 (s, legs) hmem
  have hposqty : ∀ x ∈ legs, 0 < x.Quantity := fun x hx => (hlegs_good x hx).1
  obtain ⟨hd0, rest0, rfl⟩ : ∃ hd0 rest0, legs = hd0 :: rest0 := by
    cases legs with
    | nil => exact absurd rfl hne
    | cons a t => exact ⟨a, t, rfl⟩
  obtain ⟨d, hdd⟩ := Option.isSome_iff_exists.mp
    (hlegs_good hd0 (List.mem_cons_self _ _)).2
  have hall : ∀ l ∈ hd0 :: rest0, l.Direction = some d := by
    intro l hl
    rw [hside l hl hd0 (List.mem_cons_self _ _), hdd]
  have hie : ¬((hd0 :: rest0).isEmpty = true) := by simp
  have hsum := sum_qty_pos (hd0 :: rest0) hposqty hne
  cases d with
  | Buy =>
    have hnet : netQty (hd0 :: rest0)
        = ((hd0 :: rest0).map (fun l => l.Quantity)).sum := by
      rw [netQty_all _ _ hall]; simp
    have hpos : 0 < netQty (hd0 :: rest0) := by omega
    refine ⟨Side.Buy, hall, by omega, ?_⟩
    simp only [buildOpen1]
    rw [if_neg hie, if_neg (by omega : ¬(netQty (hd0 :: rest0) = 0)), if_pos hpos]
    refine ⟨_, rfl, rfl, ?_⟩
    show |netQty (hd0 :: rest0)| = _
    rw [abs_of_pos hpos, hnet]
  | Sell =>
    have hnet : netQty (hd0 :: rest0)
        = -(((hd0 :: rest0).map (fun l => l.Quantity)).sum) := by
      rw [netQty_all _ _ hall]; simp
    have hneg : netQty (hd0 :: rest0) < 0 := by omega
    refine ⟨Side.Sell, hall, by omega, ?_⟩
    simp only [buildOpen1]
    rw [if_neg hie, if_neg (by omega : ¬(netQty (hd0 :: rest0) = 0)),
      if_neg (by omega : ¬(0 < netQty (hd0 :: rest0)))]
    refine ⟨_, rfl, rfl, ?_⟩
    show |netQty (hd0 :: rest0)| = _
    rw [abs_of_neg hneg, hnet]
    ring

/-- Witness for C10 on the C4 scenario: its single open queue is single-sided
with a Buy position of 20. -/
theorem C10_single_sided_queue_witness :
    ∃ d : Side,
      (∀ l ∈ ((pairRoundTripsAndOpen exScenario4).openLegsBySymbol.getD 0 ("", [])).2,
        l.Direction = some d) ∧
      netQty ((pairRoundTripsAndOpen exScenario4).openLegsBySymbol.getD 0 ("", [])).2 ≠ 0 ∧
      ∃ pos : OpenPosition,
        buildOpen1 ((pairRoundTripsAndOpen exScenario4).openLegsBySymbol.getD 0 ("", [])).1
            ((pairRoundTripsAndOpen exScenario4).openLegsBySymbol.getD 0 ("", [])).2
          = some pos ∧ pos.side = d ∧
        pos.quantity
          = (((pairRoundTripsAndOpen exScenario4).openLegsBySymbol.getD 0 ("", [])).2.map
              (fun l => l.Quantity)).sum :=
  C10_single_sided_queue exScenario4 (by decide) _ _
    (by
      have h1 : (pairRoundTripsAndOpen exScenario4).openLegsBySymbol ≠ [] := by
        intro hnil
        have hlen : (pairRoundTripsAndOpen exScenario4).openLegsBySymbol.length = 0 := by
          rw [hnil]; rfl
        revert hlen
        simp [pairRoundTripsAndOpen, List.insertionSort, List.orderedInsert, stepTrade,
          closeLoop, mkTrip, prorate, pushLeg, remainderLeg, ensureKey, updateKey, findLegs,
          validRow, byDt, dtMin, pV, exScenario4, sampleTrade, List.filter, List.find?]
      have h2 := getD_zero_mem _ (("", []) : String × List Trade) h1
      simpa using h2)
    (by
      simp [pairRoundTripsAndOpen, List.insertionSort, List.orderedInsert, stepTrade,
        closeLoop, mkTrip, prorate, pushLeg, remainderLeg, ensureKey, updateKey, findLegs,
        validRow, byDt, dtMin, pV, exScenario4, sampleTrade, List.filter, List.find?,
        List.getD])

/-! ### Congruence and permutation lemmas for the raw headline -/

/-- `any` is invariant under permutation. -/
theorem perm_any_eq {α : Type} (p : α → Bool) {l1 l2 : List α} (h : l1.Perm l2) :
    l1.any p = l2.any p := by
  rw [Bool.eq_iff_iff]
  simp [List.any_eq_true, h.mem_iff]

/-- Dropping list elements on which a mapped function vanishes does not
change the sum. -/
theorem sum_map_filter_eq {α M : Type} [AddCommMonoid M] (p : α → Bool) (f : α → M)
    (l : List α) (h : ∀ a ∈ l, p a = false → f a = 0) :
    ((l.filter p).map f).sum = (l.map f).sum := by
  induction l with
  | nil => rfl
  | cons a t ih =>
    have ih' := ih (fun x hx => h x (List.mem_cons_of_mem a hx))
    by_cases hp : p a = true
    · simp [List.filter_cons, hp, ih']
    · have h0 : f a = 0 := h a (List.mem_cons_self a t) (Bool.eq_false_iff.mpr hp)
      simp [List.filter_cons, hp, ih', h0]

/-- Removing empty-symbol rows does not change `withBuy` membership. -/
theorem symHasBuy_filter (trades : List Trade) (s : String) :
    symHasBuy (trades.filter (fun t => !(t.Symbol == ""))) s = symHasBuy trades s := by
  unfold symHasBuy
  rw [List.any_filter]
  congr 1
  funext t
  by_cases h : t.Symbol = "" <;> simp [h]

/-- Removing empty-symbol rows does not change `withSell` membership. -/
theorem symHasSell_filter (trades : List Trade) (s : String) :
    symHasSell (trades.filter (fun t => !(t.Symbol == ""))) s = symHasSell trades s := by
  unfold symHasSell
  rw [List.any_filter]
  congr 1
  funext t
  by_cases h : t.Symbol = "" <;> simp [h]

/-- Removing empty-symbol rows does not change the paired-symbol set. -/
theorem isPairedSymbol_filter (trades : List Trade) (s : String) :
    isPairedSymbol (trades.filter (fun t => !(t.Symbol == ""))) s
      = isPairedSymbol trades s := by
  unfold isPairedSymbol
  rw [symHasBuy_filter, symHasSell_filter]

/-- Removing empty-symbol rows does not change the headline row filter. -/
theorem headlineRow_filter (trades : List Trade) :
    headlineRow (trades.filter (fun t => !(t.Symbol == ""))) = headlineRow trades := by
  funext t
  unfold headlineRow
  rw [isPairedSymbol_filter]

/-- `withBuy` membership is invariant under permutation of the rows. -/
theorem symHasBuy_perm {l1 l2 : List Trade} (h : l1.Perm l2) (s : String) :
    symHasBuy l1 s = symHasBuy l2 s :=
  perm_any_eq _ h

/-- `withSell` membership is invariant under permutation of the rows. -/
theorem symHasSell_perm {l1 l2 : List Trade} (h : l1.Perm l2) (s : String) :
    symHasSell l1 s = symHasSell l2 s :=
  perm_any_eq _ h

/-- The headline row filter is invariant under permutation of the rows. -/
theorem headlineRow_perm {l1 l2 : List Trade} (h : l1.Perm l2) :
    headlineRow l1 = headlineRow l2 := by
  funext t
  unfold headlineRow isPairedSymbol
  rw [symHasBuy_perm h, symHasSell_perm h]

/-- The numeric headline is invariant under permutation of the rows. -/
theorem computePairedHeadline_perm {l1 l2 : List Trade} (h : l1.Perm l2) :
    computePairedHeadlineFromRawSymbolFilter l1
      = computePairedHeadlineFromRawSymbolFilter l2 := by
  unfold computePairedHeadlineFromRawSymbolFilter
  rw [headlineRow_perm h]
  rw [(h.map _).sum_eq, (h.map _).sum_eq, (h.map _).sum_eq, (h.map _).sum_eq,
    (h.map _).sum_eq]

/-! ### Membership lemmas for deduplication and the demon list -/

/-- Membership through the seeded first-occurrence deduplication. -/
theorem mem_dedupFirstAux {α : Type} [DecidableEq α] :
    ∀ (l : List α) (seen : List α) (x : α),
      x ∈ dedupFirstAux seen l ↔ x ∈ l ∧ x ∉ seen := by
  intro l
  induction l with
  | nil => intro seen x; simp [dedupFirstAux]
  | cons a t ih =>
    intro seen x
    unfold dedupFirstAux
    by_cases ha : a ∈ seen
    · rw [if_pos ha, ih]
      constructor
      · rintro ⟨h1, h2⟩
        exact ⟨List.mem_cons_of_mem _ h1, h2⟩
      · rintro ⟨h1, h2⟩
        rcases List.mem_cons.mp h1 with rfl | h3
        · exact absurd ha h2
        · exact ⟨h3, h2⟩
    · rw [if_neg ha]
      constructor
      · intro h
        rcases List.mem_cons.mp h with rfl | h1
        · exact ⟨List.mem_cons_self _ _, ha⟩
        · obtain ⟨h2, h3⟩ := (ih _ _).mp h1
          refine ⟨List.mem_cons_of_mem _ h2, fun hc => h3 (List.mem_cons_of_mem _ hc)⟩
      · rintro ⟨h1, h2⟩
        rcases List.mem_cons.mp h1 with rfl | h3
        · exact List.mem_cons_self _ _
        · by_cases hxa : x = a
          · subst hxa; exact List.mem_cons_self _ _
          · refine List.mem_cons_of_mem _ ((ih _ _).mpr ⟨h3, ?_⟩)
            intro hc
            rcases List.mem_cons.mp hc with h4 | h5
            · exact hxa h4
            · exact h2 h5

/-- Deduplication preserves membership. -/
theorem mem_dedupFirst {α : Type} [DecidableEq α] (l : List α) (x : α) :
    x ∈ dedupFirst l ↔ x ∈ l := by
  rw [dedupFirst, mem_dedupFirstAux]
  simp

/-- Membership is preserved by a guarded append. -/
theorem mem_ite_append {c : Prop} [Decidable c] {x : String} {l : List String}
    (s : String) (h : x ∈ l) : x ∈ (if c then l ++ [s] else l) := by
  split
  · exact List.mem_append_left _ h
  · exact h

/-- A true guard appends the element itself. -/
theorem mem_ite_append_self {c : Prop} [Decidable c] {x : String} {l : List String}
    (hc : c) : x ∈ (if c then l ++ [x] else l) := by
  rw [if_pos hc]
  simp

/-- Non-membership is preserved by a guarded append of a different string. -/
theorem not_mem_ite_append {c : Prop} [Decidable c] {x s : String} {l : List String}
    (hxs : x ≠ s) (h : x ∉ l) : x ∉ (if c then l ++ [s] else l) := by
  split
  · intro hmem
    rcases List.mem_append.mp hmem with h1 | h2
    · exact h h1
    · exact hxs (List.mem_singleton.mp h2)
  · exact h

/-- Non-membership is preserved by a false-guarded append. -/
theorem not_mem_ite_append_neg {c : Prop} [Decidable c] {x s : String} {l : List String}
    (hc : ¬c) (h : x ∉ l) : x ∉ (if c then l ++ [s] else l) := by
  rw [if_neg hc]
  exact h

/-- A chased entry is always tagged `CHASED ENTRY`. -/
theorem chased_mem_demonsFor (aw al : ℚ) (tn : ℕ) (pl : Option (ℕ × Option Side))
    (t : RoundTrip) (hch : chasedEntry t) :
    "CHASED ENTRY" ∈ demonsFor aw al tn pl t := by
  simp only [demonsFor]
  exact mem_ite_append _ (mem_ite_append _ (mem_ite_append _ (mem_ite_append_self hch)))

/-- When the premature-exit guard fails, the tag is absent. -/
theorem premature_not_mem_demonsFor (aw al : ℚ) (tn : ℕ)
    (pl : Option (ℕ × Option Side)) (t : RoundTrip)
    (hnp : ¬(0 < t.PnL ∧ t.holdingMinutes < 8 ∧ t.PnL < aw * (4/5))) :
    "PREMATURE EXIT" ∉ demonsFor aw al tn pl t := by
  simp only [demonsFor]
  exact not_mem_ite_append (by decide)
    (not_mem_ite_append (by decide)
      (not_mem_ite_append (by decide)
        (not_mem_ite_append (by decide)
          (not_mem_ite_append (by decide)
            (not_mem_ite_append_neg hnp
              (not_mem_ite_append (by decide)
                (not_mem_ite_append (by decide) (by simp))))))))

/-- Constructor disequality for `Side`, phrased for `simp`. -/
@[simp] theorem side_sell_eq_buy_iff : Side.Sell = Side.Buy ↔ False :=
  ⟨fun h => Side.noConfusion h, False.elim⟩

/-- Constructor disequality for `Side`, phrased for `simp`. -/
@[simp] theorem side_buy_eq_sell_iff : Side.Buy = Side.Sell ↔ False :=
  ⟨fun h => Side.noConfusion h, False.elim⟩

/-! ### Claim theorems -/

/-- Claim C4 (confirmed): on `[Buy 50 @10, Buy 50 @11, Sell 80 @12]` the
pairing engine emits exactly two slices, matched against the two buy legs in
order with quantities 50 then 30, and leaves one open Buy leg of 20 whose
`avgPrice` is the raw price of the second buy leg (11), i.e. the weighted
average over only the remaining unmatched legs. -/
theorem C4_pairing_scenario :
    ((pairRoundTripsAndOpen exScenario4).roundTrips.map
        (fun rt => (rt.entry.Quantity, rt.exit.Quantity, rt.entry.Price, rt.entry.Direction))
      = [(50, 50, some (10 : ℚ), some Side.Buy), (30, 30, some (11 : ℚ), some Side.Buy)]) ∧
    buildOpenPositionsFromOpenLegs (pairRoundTripsAndOpen exScenario4).openLegsBySymbol
      = [{ symbol := "S", side := Side.Buy, quantity := 20, avgPrice := 11 }] := by
  simp [pairRoundTripsAndOpen, buildOpenPositionsFromOpenLegs, buildOpen1, netQty,
    openRawPrice, posLE, r2, jsEpsilon, round_eq, List.insertionSort, List.orderedInsert,
    stepTrade, closeLoop, mkTrip, prorate, pushLeg, remainderLeg, ensureKey, updateKey,
    findLegs, validRow, byDt, dtMin, pV, exScenario4, sampleTrade, List.filter, List.find?]
  norm_num

/-- Claim C1 counterexample: on `[Buy 1, Sell 1]` for symbol `S`, the sum of
matched round-trip quantities (1) plus the open quantities (0) is 1, while the
total quantity of all rows of the symbol is 2 — each matched slice consumes
quantity from the entry row and from the exit row, so the stated equation
fails. -/
theorem C1_counterexample :
    rtMatchedQtySum (pairRoundTripsAndOpen exTwoLegs).roundTrips "S" = 1 ∧
    openQtySum (pairRoundTripsAndOpen exTwoLegs).openLegsBySymbol "S" = 0 ∧
    symQtySum exTwoLegs "S" = 2 ∧
    ¬ (rtMatchedQtySum (pairRoundTripsAndOpen exTwoLegs).roundTrips "S"
        + openQtySum (pairRoundTripsAndOpen exTwoLegs).openLegsBySymbol "S"
        = symQtySum exTwoLegs "S") := by
  refine ⟨?_, ?_, ?_, ?_⟩ <;>
    simp [pairRoundTripsAndOpen, rtMatchedQtySum, openQtySum, symQtySum, List.insertionSort,
      List.orderedInsert, stepTrade, closeLoop, mkTrip, prorate, pushLeg, remainderLeg,
      ensureKey, updateKey, findLegs, validRow, byDt, dtMin, pV, exTwoLegs, sampleTrade,
      List.filter, List.find?]

/-- Claim C2 counterexample: in `exFlip` the only row with nonzero charges is
the sell of 2 (charges 2).  Its first slice is attributed charge 1, the
flipped remainder leg is pushed with charge 1, but when that remainder is
later matched its charge is pro-rated a second time (by `slice / _fullQty =
1/2`), so the slices of the sell carry `1 + 1/2 = 3/2` in total and the open
queue is empty: total attributed charges are `3/2 ≠ 2`, with no rounding
involved. -/
theorem C2_counterexample :
    tripChargesSum (pairRoundTripsAndOpen exFlip).roundTrips = 3/2 ∧
    openChargesSum (pairRoundTripsAndOpen exFlip).openLegsBySymbol = 0 ∧
    inputChargesSum exFlip = 2 ∧
    ((3 : ℚ)/2 ≠ 2) := by
  refine ⟨?_, ?_, ?_, ?_⟩ <;>
    simp [pairRoundTripsAndOpen, tripChargesSum, openChargesSum, inputChargesSum,
      List.insertionSort, List.orderedInsert, stepTrade, closeLoop, mkTrip, prorate,
      pushLeg, remainderLeg, ensureKey, updateKey, findLegs, validRow, byDt, dtMin, pV,
      exFlip, sampleTrade, List.filter, List.find?] <;> norm_num

/-- Claim C3 counterexample: the row `badQtyRow` is missing its quantity
(zero, JS-falsy), so it is dropped from pairing (`validRow` rejects it) — but
its charges still flow into the raw paired-symbol headline: adding it to
`exTwoLegs` moves the headline net P&L from 0 to -100 and the headline
charges total from 0 to 100, contradicting the claim that such a row
contributes to no reported P&L figure. -/
theorem C3_counterexample :
    validRow badQtyRow = false ∧
    (processTrades exTwoLegs).netPnl = 0 ∧
    (processTrades exWithBadRow).netPnl = -100 ∧
    (processTrades exTwoLegs).pairedTotals.charges = 0 ∧
    (processTrades exWithBadRow).pairedTotals.charges = 100 := by
  refine ⟨?_, ?_, ?_, ?_, ?_⟩ <;>
    simp [processTrades, computePairedHeadlineFromRawSymbolFilter, headlineRow,
      isPairedSymbol, symHasBuy, symHasSell, rawPrice, r2, jsEpsilon, round_eq,
      validRow, exTwoLegs, exWithBadRow, badQtyRow, sampleTrade, List.filter] <;>
    norm_num

/-- Claim C3 (corrected / amended): a row missing symbol, side, quantity, or
price fails the pairing filter and is dropped from pairing silently — the
engine behaves exactly as if only the valid rows had been supplied, so such a
row never appears as a leg of any round trip or open position.  A row with an
empty symbol also contributes nothing to the raw paired-symbol headline.
(The counterexample shows that a filtered row with a missing quantity or
price can nevertheless still contribute its charges to the headline.) -/
theorem C3_dropped_rows (trades : List Trade) :
    pairRoundTripsAndOpen trades = pairRoundTripsAndOpen (trades.filter validRow) ∧
    computePairedHeadlineFromRawSymbolFilter trades
      = computePairedHeadlineFromRawSymbolFilter
          (trades.filter (fun t => !(t.Symbol == ""))) := by
  constructor
  · simp [pairRoundTripsAndOpen, List.filter_filter]
  · unfold computePairedHeadlineFromRawSymbolFilter
    rw [headlineRow_filter]
    rw [sum_map_filter_eq _ _ _ ?hz1, sum_map_filter_eq _ _ _ ?hz2,
      sum_map_filter_eq _ _ _ ?hz3, sum_map_filter_eq _ _ _ ?hz4,
      sum_map_filter_eq _ _ _ ?hz5]
    case hz1 | hz2 | hz3 | hz4 | hz5 =>
      intro t _ hfalse
      have hsym : t.Symbol = "" := by
        by_contra hne
        simp [hne] at hfalse
      simp [headlineRow, hsym]

/-- The profit factor field of the output is the `profitFactorOf` of the
paired round trips. -/
theorem processTrades_profitFactor (trades : List Trade) :
    (processTrades trades).profitFactor = profitFactorOf (pairRoundTripsAndOpen trades).roundTrips :=
  rfl

/-- Claim C6 (confirmed): the reported profit factor is gross profit over
gross loss when the gross loss is nonzero, `Infinity` (the `JNum.inf`
constructor, never a finite value) when the gross profit is positive and the
gross loss is zero, and `0` when both are zero. -/
theorem C6_profit_factor (trades : List Trade) :
    (lossSumOf (pairRoundTripsAndOpen trades).roundTrips ≠ 0 →
      (processTrades trades).profitFactor =
        JNum.fin (profitSumOf (pairRoundTripsAndOpen trades).roundTrips
          / lossSumOf (pairRoundTripsAndOpen trades).roundTrips)) ∧
    (lossSumOf (pairRoundTripsAndOpen trades).roundTrips = 0 →
      0 < profitSumOf (pairRoundTripsAndOpen trades).roundTrips →
      (processTrades trades).profitFactor = JNum.inf) ∧
    (lossSumOf (pairRoundTripsAndOpen trades).roundTrips = 0 →
      profitSumOf (pairRoundTripsAndOpen trades).roundTrips = 0 →
      (processTrades trades).profitFactor = JNum.fin 0) := by
  refine ⟨fun hl => ?_, fun hl hp => ?_, fun hl hp => ?_⟩
  · simp [processTrades_profitFactor, profitFactorOf, hl]
  · simp [processTrades_profitFactor, profitFactorOf, hl, hp]
  · simp [processTrades_profitFactor, profitFactorOf, hl, hp]

/-- Witness for C6: on `exProfitOnly` the gross loss is zero and the gross
profit is positive, and the reported profit factor is `Infinity`. -/
theorem C6_profit_factor_witness :
    (processTrades exProfitOnly).profitFactor = JNum.inf :=
  (C6_profit_factor exProfitOnly).2.1
    (by
      simp [lossSumOf, pairRoundTripsAndOpen, List.insertionSort, List.orderedInsert,
        stepTrade, closeLoop, mkTrip, prorate, pushLeg, remainderLeg, ensureKey, updateKey,
        findLegs, validRow, byDt, dtMin, pV, exProfitOnly, sampleTrade, List.filter,
        List.find?]
      norm_num)
    (by
      simp [profitSumOf, pairRoundTripsAndOpen, List.insertionSort, List.orderedInsert,
        stepTrade, closeLoop, mkTrip, prorate, pushLeg, remainderLeg, ensureKey, updateKey,
        findLegs, validRow, byDt, dtMin, pV, exProfitOnly, sampleTrade, List.filter,
        List.find?]
      norm_num)

/-- The headline net P&L field of the output restated. -/
theorem processTrades_netPnl (trades : List Trade) :
    (processTrades trades).netPnl
      = r2 (computePairedHeadlineFromRawSymbolFilter trades).netPnl :=
  rfl

/-- The paired-totals field of the output restated. -/
theorem processTrades_pairedTotals (trades : List Trade) :
    (processTrades trades).pairedTotals
      = { buyQty := (computePairedHeadlineFromRawSymbolFilter trades).buyQty
          sellQty := (computePairedHeadlineFromRawSymbolFilter trades).sellQty
          avgBuy := (computePairedHeadlineFromRawSymbolFilter trades).avgBuy
          avgSell := (computePairedHeadlineFromRawSymbolFilter trades).avgSell
          charges := (computePairedHeadlineFromRawSymbolFilter trades).charges
          netPnl := (computePairedHeadlineFromRawSymbolFilter trades).netPnl } :=
  rfl

/-- Claim C9 (corrected / amended): `processTrades` is not a pure function of
the row multiset — the counterexample permutes two equal-timestamp rows and
changes the output — but the raw paired-symbol headline (the reported
`netPnl` and `pairedTotals`) is invariant under any permutation of the input
rows, and processing is deterministic on equal lists. -/
theorem C9_headline_perm_invariant (l1 l2 : List Trade) (h : l1.Perm l2) :
    (processTrades l1).netPnl = (processTrades l2).netPnl ∧
    (processTrades l1).pairedTotals = (processTrades l2).pairedTotals := by
  have hh := computePairedHeadline_perm h
  constructor
  · rw [processTrades_netPnl, processTrades_netPnl, hh]
  · rw [processTrades_pairedTotals, processTrades_pairedTotals, hh]

/-- Witness for the amended C9: the permuted pair `exTied1`/`exTied2` has
equal headline figures even though the full `Stats` differ. -/
theorem C9_headline_perm_invariant_witness :
    (processTrades exTied1).netPnl = (processTrades exTied2).netPnl ∧
    (processTrades exTied1).pairedTotals = (processTrades exTied2).pairedTotals :=
  C9_headline_perm_invariant exTied1 exTied2 (by decide)

/-- Every trip the tagger emits satisfies `ClassOk`, by the very formulas it
uses to set the booleans. -/
theorem tagTrip_classOk (aw al : ℚ) (tn : ℕ) (pl : Option (ℕ × Option Side))
    (t : RoundTrip) : ClassOk (tagTrip aw al tn pl t) := by
  unfold ClassOk tagTrip
  simp only [Bool.and_eq_true, Bool.not_eq_true', Bool.or_eq_true, decide_eq_true_eq,
    List.isEmpty_iff, List.isEmpty_eq_false, ne_eq]
  tauto

/-- The `tagged` list grows by exactly the tagged copy of the processed
trip. -/
theorem tagStep_tagged (aw al : ℚ) (st : TagState) (t : RoundTrip) :
    (tagStep aw al st t).tagged
      = st.tagged ++ [tagTrip aw al (ordOf (bumpOrd st.dayOrd t.exit.Date) t.exit.Date)
          st.prevLoss t] := by
  simp only [tagStep]
  split_ifs <;> rfl

/-- The tagged output of a one-trip list. -/
theorem runTagging_singleton (rt : RoundTrip) :
    (runTagging [rt]).tagged
      = [tagTrip (avgWinOf [rt]) (avgLossOf [rt]) 1 none rt] := by
  unfold runTagging
  rw [List.foldl_cons, List.foldl_nil, tagStep_tagged]
  simp [bumpOrd, ordOf, List.find?]

/-- The `trades` field of the output is the tagged round-trip list. -/
theorem processTrades_trades (trades : List Trade) :
    (processTrades trades).trades
      = (runTagging (pairRoundTripsAndOpen trades).roundTrips).tagged :=
  rfl

/-- Classification correctness propagates through the tagging fold. -/
theorem foldl_tagStep_classOk (aw al : ℚ) :
    ∀ (l : List RoundTrip) (st : TagState),
      (∀ x ∈ st.tagged, ClassOk x) →
      ∀ x ∈ (l.foldl (tagStep aw al) st).tagged, ClassOk x := by
  intro l
  induction l with
  | nil => intro st h; exact h
  | cons t l ih =>
    intro st h
    rw [List.foldl_cons]
    refine ih _ ?_
    intro x hx
    rw [tagStep_tagged] at hx
    rcases List.mem_append.mp hx with h1 | h2
    · exact h x h1
    · rw [List.mem_singleton] at h2
      subst h2
      exact tagTrip_classOk _ _ _ _ _

/-- Claim C5 (confirmed): after tagging, no round trip is both `isBadTrade`
and `isGoodTrade`; a trip is bad exactly when it carries at least one demon
tag and has negative P&L, and good exactly when it carries at least two good
tags, no demon tags, and either positive P&L or the `STOP LOSS RESPECTED`
tag on a non-positive P&L. -/
theorem C5_classification (trades : List Trade) (rt : RoundTrip)
    (h : rt ∈ (processTrades trades).trades) :
    (¬(rt.isBadTrade = true ∧ rt.isGoodTrade = true)) ∧
    (rt.isBadTrade = true ↔ (rt.DemonArr ≠ [] ∧ rt.PnL < 0)) ∧
    (rt.isGoodTrade = true ↔ (2 ≤ rt.GoodPracticeArr.length ∧ rt.DemonArr = [] ∧
      (0 < rt.PnL ∨ "STOP LOSS RESPECTED" ∈ rt.GoodPracticeArr))) := by
  have hT : (processTrades trades).trades
      = (runTagging (pairRoundTripsAndOpen trades).roundTrips).tagged := rfl
  rw [hT] at h
  exact foldl_tagStep_classOk _ _ _ _ (by intro x hx; cases hx) rt h

/-- Witness for C5 at a concrete input: the single round trip of
`exProfitOnly` satisfies the classification invariant. -/
theorem C5_classification_witness :
    (¬(((processTrades exProfitOnly).trades.getD 0 rtDefault).isBadTrade = true ∧
        ((processTrades exProfitOnly).trades.getD 0 rtDefault).isGoodTrade = true)) ∧
    (((processTrades exProfitOnly).trades.getD 0 rtDefault).isBadTrade = true ↔
      (((processTrades exProfitOnly).trades.getD 0 rtDefault).DemonArr ≠ [] ∧
        ((processTrades exProfitOnly).trades.getD 0 rtDefault).PnL < 0)) ∧
    (((processTrades exProfitOnly).trades.getD 0 rtDefault).isGoodTrade = true ↔
      (2 ≤ ((processTrades exProfitOnly).trades.getD 0 rtDefault).GoodPracticeArr.length ∧
        ((processTrades exProfitOnly).trades.getD 0 rtDefault).DemonArr = [] ∧
        (0 < ((processTrades exProfitOnly).trades.getD 0 rtDefault).PnL ∨
          "STOP LOSS RESPECTED" ∈
            ((processTrades exProfitOnly).trades.getD 0 rtDefault).GoodPracticeArr))) :=
  C5_classification exProfitOnly _ (by
    have h1 : (processTrades exProfitOnly).trades ≠ [] := by
      intro hnil
      have : ((processTrades exProfitOnly).trades).length = 0 := by rw [hnil]; rfl
      rw [show (processTrades exProfitOnly).trades
            = (runTagging (pairRoundTripsAndOpen exProfitOnly).roundTrips).tagged from rfl]
          at this
      revert this
      simp [runTagging, pairRoundTripsAndOpen, List.insertionSort, List.orderedInsert,
        stepTrade, closeLoop, mkTrip, prorate, pushLeg, remainderLeg, ensureKey, updateKey,
        findLegs, validRow, byDt, dtMin, pV, exProfitOnly, sampleTrade, List.filter,
        List.find?, tagStep_tagged]
    exact getD_zero_mem _ _ h1)

/-- Claim C9 counterexample: `exTied1` and `exTied2` are permutations of each
other (two buys with identical timestamps swapped), yet processing them gives
different `Stats`: the sell is FIFO-matched against a different buy, so
`tradeWinPercent` is 100 for one order and 0 for the other. -/
theorem C9_counterexample :
    exTied1.Perm exTied2 ∧
    (processTrades exTied1).tradeWinPercent = 100 ∧
    (processTrades exTied2).tradeWinPercent = 0 := by
  refine ⟨by decide, ?_, ?_⟩ <;>
    simp [processTrades, tradeWinPercentOf, winsOf, pairRoundTripsAndOpen,
      List.insertionSort, List.orderedInsert, stepTrade, closeLoop, mkTrip, prorate,
      pushLeg, remainderLeg, ensureKey, updateKey, findLegs, validRow, byDt, dtMin, pV,
      exTied1, exTied2, sampleTrade, List.filter, List.find?, r2, jsEpsilon, round_eq] <;>
    norm_num

/-- Claim C7 (confirmed): processing `[Buy 100 XYZ @10 09:16, Sell 100 XYZ
@12 09:20]` (any leg charges) yields exactly one round trip, with P&L equal
to `(12 - 10) * 100` minus both legs' charges and a holding time of 4
minutes, tagged `CHASED ENTRY` (entry 09:16 is before the 09:20 cutoff) and
not `PREMATURE EXIT` (there is no prior average win to undercut). -/
theorem C7_scenario (c1 c2 : ℚ) :
    (processTrades (exScenario7 c1 c2)).trades.map
        (fun rt => (rt.PnL, rt.holdingMinutes,
          decide ("CHASED ENTRY" ∈ rt.DemonArr),
          decide ("PREMATURE EXIT" ∈ rt.DemonArr)))
      = [((12 - 10) * 100 - c1 - c2, 4, true, false)] := by
  have hpair : (pairRoundTripsAndOpen (exScenario7 c1 c2)).roundTrips
      = [mkTrip (sampleTrade 0 (some 560) "XYZ" Side.Sell 100 12 c2)
          (pushLeg (sampleTrade 0 (some 556) "XYZ" Side.Buy 100 10 c1)) 100] := by
    simp [pairRoundTripsAndOpen, exScenario7, List.insertionSort, List.orderedInsert,
      stepTrade, closeLoop, ensureKey, updateKey, findLegs, validRow, byDt, dtMin,
      sampleTrade, List.filter, List.find?, pushLeg, min_self]
  rw [processTrades_trades, hpair, runTagging_singleton]
  set rt0 := mkTrip (sampleTrade 0 (some 560) "XYZ" Side.Sell 100 12 c2)
    (pushLeg (sampleTrade 0 (some 556) "XYZ" Side.Buy 100 10 c1)) 100 with hrt0
  have hPnL : rt0.PnL = (12 - 10) * 100 - c1 - c2 := by
    rw [hrt0]
    simp [mkTrip, prorate, pushLeg, pV, sampleTrade]
    ring
  have hHold : rt0.holdingMinutes = 4 := by
    rw [hrt0]
    simp [mkTrip, dtMin, pushLeg, sampleTrade]
  have hch : chasedEntry rt0 := by
    rw [hrt0]
    simp [chasedEntry, mkTrip, pushLeg, sampleTrade]
  have hnp : ¬(0 < rt0.PnL ∧ rt0.holdingMinutes < 8 ∧
      rt0.PnL < avgWinOf [rt0] * (4/5)) := by
    rcases lt_or_le 0 rt0.PnL with hP | hP
    · have haw : avgWinOf [rt0] = rt0.PnL := by
        simp [avgWinOf, winsOf, profitSumOf, List.countP_cons, List.countP_nil, hP]
      rintro ⟨h1, _, h3⟩
      rw [haw] at h3
      linarith
    · rintro ⟨h1, _, _⟩
      exact absurd h1 (not_lt.mpr hP)
  have hPnLproj : (tagTrip (avgWinOf [rt0]) (avgLossOf [rt0]) 1 none rt0).PnL
      = rt0.PnL := rfl
  have hHoldproj : (tagTrip (avgWinOf [rt0]) (avgLossOf [rt0]) 1 none rt0).holdingMinutes
      = rt0.holdingMinutes := rfl
  have hDemon : (tagTrip (avgWinOf [rt0]) (avgLossOf [rt0]) 1 none rt0).DemonArr
      = dedupFirst (demonsFor (avgWinOf [rt0]) (avgLossOf [rt0]) 1 none rt0) := rfl
  simp only [List.map_cons, List.map_nil, List.cons.injEq, and_true, Prod.mk.injEq]
  refine ⟨?_, ?_, ?_, ?_⟩
  · rw [hPnLproj, hPnL]
  · rw [hHoldproj, hHold]
  · rw [hDemon]
    simp only [decide_eq_true_eq, mem_dedupFirst]
    exact chased_mem_demonsFor _ _ _ _ _ hch
  · rw [hDemon]
    simp only [decide_eq_false_iff_not, mem_dedupFirst]
    exact premature_not_mem_demonsFor _ _ _ _ _ hnp

end TradeJournal
